import Mathlib

/-!
Verification development for the pyQADR repository: a shallow embedding of the
QADR (quantum anonymous data reporting) simulation — pairwise QKD key store,
SHAKE-based pad expansion (`qs_prf`), participant vector construction and
masking, XOR aggregation, and the slot-reservation / data-submission protocol
— together with theorems settling the specification's claims.

Bytes are modelled as natural numbers combined with `Nat.xor` (numpy `uint8`
buffers become `List Nat`; XOR never enlarges operands, so no mod-256 step is
needed anywhere the code XORs).  Fallible Python code (raises) is modelled
with `Except Err`, one constructor per raise site.  Randomness
(`os.urandom`, `np.random.*`) is supplied by oracle parameters, and the
SHAKE256 extendable-output function — an external primitive the repository
only calls — is an arbitrary byte-stream parameter `S : List Nat → Nat → Nat`
(key ↦ position ↦ byte), so every theorem holds for the real XOF.
The width constants of `qadr/constants.py` (a module the repository imports
but whose file is not part of the sources) are threaded as parameters
`K` (QKD_KEY_LENGTH_BYTES), `P` (PSEUDONYM_LENGTH_BYTES) and
`W` (DEFAULT_MESSAGE_LENGTH_BYTES), exactly as the spec describes them.
-/

/-- One constructor per raise site / failure outcome of the Python sources. -/
inductive Err where
  /-- `qs_prf`: `ValueError` for a key whose length is not `K`. -/
  | invalidKeyLength
  /-- `QKDNetwork.get_key`: `ValueError` when both ids coincide. -/
  | selfPairing
  /-- `QKDNetwork.get_key`: `KeyError` when the pair is not in the store. -/
  | unknownPair
  /-- `QKDNetwork.__init__`: `ValueError` for an empty / duplicated id list. -/
  | invalidParticipantSet
  /-- `ServiceProvider.aggregate_vectors`: `ValueError` on an empty batch. -/
  | emptyBatch
  /-- `ServiceProvider.aggregate_vectors`: `ValueError` on length mismatch. -/
  | lengthMismatch
  /-- `Participant.create_vector`: `RuntimeError` when no slot is chosen. -/
  | slotNotChosen
  /-- numpy slice assignment: `ValueError` when content overruns the buffer. -/
  | broadcastMismatch
  /-- `np.frombuffer(None)`: `TypeError` when the pseudonym is unset. -/
  | noneContent
  /-- `np.random.randint(0, 0)` / `np.random.choice([])`: `ValueError`. -/
  | randEmptyRange
  /-- `run_data_submission` returns `False`: some participant lacks a slot. -/
  | notAllReserved
deriving DecidableEq, Repr

/-- `np.bitwise_xor` on two equal-shape `uint8` buffers. -/
def listXor (a b : List Nat) : List Nat :=
  List.zipWith (fun x y => x ^^^ y) a b

/-- XOR of a list of bytes (proof device for pointwise reasoning). -/
def xorNatAll (l : List Nat) : Nat :=
  l.foldr (fun x acc => x ^^^ acc) 0

/-- A zero buffer of `total` bytes with `content` written at offset `start`
(numpy `vector[start:start+len(content)] = content` on a zeroed vector). -/
def place (content : List Nat) (start total : Nat) : List Nat :=
  (List.range total).map
    (fun k => if start ≤ k ∧ k < start + content.length then content.getD (k - start) 0 else 0)

/-- Position of the first occurrence of `a` in `l` (Python `list.index`). -/
def posOf {α : Type} [DecidableEq α] (a : α) : List α → Nat
  | [] => 0
  | b :: t => if a = b then 0 else posOf a t + 1

/-- Monadic map over a list in `Except Err`: the Python pattern of a `for`
loop appending results, where any raise aborts the whole loop. -/
def exceptMapList {α β : Type} (f : α → Except Err β) : List α → Except Err (List β)
  | [] => .ok []
  | a :: t =>
    match f a with
    | .error e => .error e
    | .ok b =>
      match exceptMapList f t with
      | .error e => .error e
      | .ok bs => .ok (b :: bs)

/-- `crypto/qs_prf.py`: expand a key into `output_length_bytes` pseudorandom
bytes with SHAKE256.  The XOF itself is external (`hashlib`), abstracted as a
stream `S`: a fresh SHAKE object updated with `key` and digested to `L` bytes
yields the first `L` bytes of the key-determined stream. -/
def qs_prf (K : Nat) (S : List Nat → Nat → Nat) (key : List Nat) (output_length_bytes : Nat) :
    Except Err (List Nat) :=
  if key.length ≠ K then .error .invalidKeyLength
  else .ok ((List.range output_length_bytes).map (S key))

/-- `simulators/qkd_network_simulator.py`: the pairwise key store.
`participant_ids` is the registered id list; the `_keys` dict — holding one
entry per normalized pair `(min, max)` of distinct registered ids, each an
`os.urandom` secret — is modelled by the total function `secret` read only at
normalized pairs together with the domain test in `get_key`. -/
structure QKDNetwork where
  participant_ids : List Nat
  secret : Nat → Nat → List Nat

/-- `QKDNetwork.get_key`: `ValueError` on a self pair, the `_keys` lookup of
the normalized pair otherwise (`KeyError` when either id is unregistered). -/
def QKDNetwork.get_key (net : QKDNetwork) (p_id1 p_id2 : Nat) : Except Err (List Nat) :=
  if p_id1 = p_id2 then .error .selfPairing
  else if min p_id1 p_id2 ∈ net.participant_ids ∧ max p_id1 p_id2 ∈ net.participant_ids then
    .ok (net.secret (min p_id1 p_id2) (max p_id1 p_id2))
  else .error .unknownPair

/-- `qadr/participant.py`: reservation status enumeration. -/
inductive ReservationStatus where
  | PENDING
  | SUCCESSFUL
  | COLLIDED
deriving DecidableEq, Repr

/-- `qadr/participant.py`: a participant's data.  `other_participant_ids` is
set by the constructor to all ids except its own. -/
structure Participant where
  id : Nat
  message : List Nat
  other_participant_ids : List Nat
  reservation_status : ReservationStatus
  pseudonym : Option (List Nat)
  chosen_slot_index : Option Nat
deriving DecidableEq, Repr

/-- Placeholder participant for `getD`-style indexing in statements. -/
def defaultParticipant : Participant :=
  { id := 0, message := [], other_participant_ids := [],
    reservation_status := .PENDING, pseudonym := none, chosen_slot_index := none }

instance : Inhabited Participant := ⟨defaultParticipant⟩

/-- `Participant.__init__` (the random message supplied by the caller). -/
def Participant.init (p_id : Nat) (all_participant_ids : List Nat) (msg : List Nat) :
    Participant :=
  { id := p_id, message := msg,
    other_participant_ids := all_participant_ids.filter (fun pid => pid ≠ p_id),
    reservation_status := .PENDING, pseudonym := none, chosen_slot_index := none }

/-- `Participant.generate_new_pseudonym` (the `os.urandom` bytes supplied). -/
def Participant.generate_new_pseudonym (p : Participant) (pn : List Nat) : Participant :=
  { p with pseudonym := some pn }

/-- `Participant.choose_slot`: `np.random.randint(0, num_available_slots)`,
recorded as the chosen slot and returned.  The oracle `rand` stands for the
random draw; `randint` raises `ValueError` when the range is empty. -/
def Participant.choose_slot (p : Participant) (rand num_available_slots : Nat) :
    Except Err (Participant × Nat) :=
  if num_available_slots = 0 then .error .randEmptyRange
  else .ok ({ p with chosen_slot_index := some (rand % num_available_slots) },
            rand % num_available_slots)

/-- `Participant.create_vector`: zero vector of `vector_length × slot_len_bytes`
bytes with `content` written at byte offset `chosen_slot_index × slot_len_bytes`.
The guard is numpy's broadcast check for the assignment into the clipped slice
`vector[start : start+len(content)]`: it must have exactly `len(content)`
cells, except that shape-`(1,)` content broadcasts into a slice of any size —
in particular into the empty out-of-range slice, a silent no-op that leaves
the zero vector unchanged (`place` writes nothing there). -/
def Participant.create_vector (p : Participant) (content : List Nat)
    (vector_length slot_len_bytes : Nat) : Except Err (List Nat) :=
  match p.chosen_slot_index with
  | none => .error .slotNotChosen
  | some slot =>
    let total := vector_length * slot_len_bytes
    let start := slot * slot_len_bytes
    if min (start + content.length) total - min start total = content.length
        ∨ content.length = 1 then
      .ok (place content start total)
    else .error .broadcastMismatch

/-- The pad `qs_prf` produces for one shared key at length `L` (pure form). -/
def padOf (S : List Nat → Nat → Nat) (key : List Nat) (L : Nat) : List Nat :=
  (List.range L).map (S key)

/-- `Participant.mask_vector`'s loop: XOR into the running buffer, for every
other participant, the shared-key pad expanded to the buffer's length. -/
def maskFold (K : Nat) (S : List Nat → Nat → Nat) (net : QKDNetwork) (selfId : Nat) :
    List Nat → List Nat → Except Err (List Nat)
  | [], acc => .ok acc
  | other_pid :: rest, acc =>
    match net.get_key selfId other_pid with
    | .error e => .error e
    | .ok shared_key =>
      match qs_prf K S shared_key acc.length with
      | .error e => .error e
      | .ok pad => maskFold K S net selfId rest (listXor acc pad)

/-- `Participant.mask_vector`. -/
def Participant.mask_vector (p : Participant) (K : Nat) (S : List Nat → Nat → Nat)
    (net : QKDNetwork) (vector : List Nat) : Except Err (List Nat) :=
  maskFold K S net p.id p.other_participant_ids vector

/-- `Participant.verify_reservation`: no-op without a slot and pseudonym;
otherwise compare the pseudonym-sized region of the public vector at the
chosen slot's offset against the own pseudonym. -/
def Participant.verify_reservation (p : Participant) (P : Nat) (public_vector : List Nat)
    (slot_len_bytes : Nat) : Participant :=
  match p.chosen_slot_index, p.pseudonym with
  | some slot, some pn =>
    let start := slot * slot_len_bytes
    let slot_content := (public_vector.drop start).take P
    if slot_content = pn then { p with reservation_status := .SUCCESSFUL }
    else { p with reservation_status := .COLLIDED }
  | _, _ => p

/-- `qadr/service_provider.py` — `ServiceProvider.aggregate_vectors`:
`functools.reduce(np.bitwise_xor, vectors)` after an emptiness and an
equal-shape check. -/
def aggregate_vectors (vectors : List (List Nat)) : Except Err (List Nat) :=
  match vectors with
  | [] => .error .emptyBatch
  | v :: rest =>
    if rest.all (fun w => w.length == v.length) then .ok (rest.foldl listXor v)
    else .error .lengthMismatch

/-- Insertion step of the id-ordered sort used below. -/
def insertById (p : Participant) : List Participant → List Participant
  | [] => [p]
  | q :: t => if p.id ≤ q.id then p :: q :: t else q :: insertById p t

/-- `successful_participants.sort(key=lambda p: p.id)`: sort by identity. -/
def sortById : List Participant → List Participant
  | [] => []
  | p :: t => insertById p (sortById t)

/-- Rank of an id inside an id list: how many ids are strictly smaller.  For a
duplicate-free list this is the position the id gets after sorting. -/
def idRank (ids : List Nat) (a : Nat) : Nat :=
  ids.countP (fun b => b < a)

/-- `qadr/protocol.py` lines 170–172: on full reservation success the
participants are sorted by id and each one's slot index is overwritten in
place with its position in that order (the dense index for the data round). -/
def compact_slots (ps : List Participant) : List Participant :=
  let sorted := sortById ps
  ps.map (fun p => { p with chosen_slot_index := some (posOf p sorted) })

/-- `np.random.choice(l)`: a uniformly chosen element of `l` (`ValueError` on
an empty array); the oracle `rand` stands for the random draw. -/
def np_random_choice (rand : Nat) (l : List Nat) : Except Err Nat :=
  if l = [] then .error .randEmptyRange
  else .ok (l.getD (rand % l.length) 0)

/-- The bytes handed to `create_vector` in the reservation round: the current
pseudonym (`np.frombuffer(None)` would raise if it were unset). -/
def contentOf (p : Participant) : Except Err (List Nat) :=
  match p.pseudonym with
  | some c => .ok c
  | none => .error .noneContent

/-- `qadr/protocol.py` lines 113–126 for one participant: a successful one
only refreshes its pseudonym and keeps its slot; any other is reset to
`PENDING`, refreshes its pseudonym, and picks a slot from the available list.
`pseud`/`pick` are the round's randomness, keyed by participant id. -/
def prepOne (pseud : Nat → List Nat) (pick : Nat → Nat) (available : List Nat)
    (p : Participant) : Except Err Participant :=
  if p.reservation_status = .SUCCESSFUL then
    .ok (p.generate_new_pseudonym (pseud p.id))
  else
    match np_random_choice (pick p.id) available with
    | .error e => .error e
    | .ok chosen_slot =>
      .ok { ({ p with reservation_status := .PENDING }).generate_new_pseudonym (pseud p.id)
              with chosen_slot_index := some chosen_slot }

/-- `qadr/protocol.py` lines 144–147: only not-yet-successful participants
re-verify against the round's public vector. -/
def classifyOne (P : Nat) (public : List Nat) (p : Participant) : Participant :=
  if p.reservation_status ≠ .SUCCESSFUL then p.verify_reservation P public P else p

/-- `qadr/protocol.py` lines 149–153: the slot set collected from every
currently successful participant whose slot is set. -/
def newlyOf (ps : List Participant) : List Nat :=
  ((ps.filter (fun p => p.reservation_status = .SUCCESSFUL)).filter
      (fun p => p.chosen_slot_index.isSome)).map (fun p => p.chosen_slot_index.getD 0)

/-- The not-yet-successful participants, in list order (the protocol's
`pending_participants` bookkeeping recomputed from the statuses). -/
def pendingOf (ps : List Participant) : List Participant :=
  ps.filter (fun p => p.reservation_status ≠ .SUCCESSFUL)

/-- `qadr/protocol.py` line 88: slot indices not in the occupied set. -/
def availableOf (m : Nat) (occupied : List Nat) : List Nat :=
  (List.range m).filter (fun i => i ∉ occupied)

/-- Mutable state carried between reservation rounds. -/
structure RState where
  participants : List Participant
  occupied : List Nat
deriving DecidableEq, Repr

/-- Outcome of one iteration of the reservation loop. -/
inductive RoundOutcome where
  /-- `break` on an empty pending list (falls through to overall failure). -/
  | breakLoop
  /-- `return False`: no available slots while participants are pending. -/
  | insufficient
  /-- `return True`: all participants successful; slots compacted. -/
  | reserved (ps : List Participant)
  /-- Continue with the next round.  `conflict` records whether the
  critical-error report (newly collected slots meeting the occupied set)
  fired this round — the code prints it and carries on. -/
  | next (conflict : Bool) (st : RState)
deriving DecidableEq, Repr

/-- One participant's reservation-round submission (`qadr/protocol.py`
lines 128–133): build the pseudonym vector over the `m`-slot space and mask
it against every other participant. -/
def roundSubmitOne (K P : Nat) (S : List Nat → Nat → Nat) (net : QKDNetwork) (m : Nat)
    (p : Participant) : Except Err (List Nat) :=
  match contentOf p with
  | .error e => .error e
  | .ok c =>
    match p.create_vector c m P with
    | .error e => .error e
    | .ok v => p.mask_vector K S net v

/-- One iteration of `QADRProtocol.run_slot_reservation`'s loop, following
the source order: pending check, available-slot computation and emptiness
check, per-participant preparation, vector building and masking, aggregation,
verification, occupied-set bookkeeping, and the completion test. -/
def reservation_round (K P : Nat) (S : List Nat → Nat → Nat) (net : QKDNetwork) (m : Nat)
    (pseud : Nat → List Nat) (pick : Nat → Nat) (st : RState) : Except Err RoundOutcome :=
  if pendingOf st.participants = [] then .ok .breakLoop
  else
    let available := availableOf m st.occupied
    if available = [] then .ok .insufficient
    else
      match exceptMapList (prepOne pseud pick available) st.participants with
      | .error e => .error e
      | .ok ps1 =>
        match exceptMapList (roundSubmitOne K P S net m) ps1 with
        | .error e => .error e
        | .ok masked =>
          match aggregate_vectors masked with
          | .error e => .error e
          | .ok public =>
            let ps2 := ps1.map (classifyOne P public)
            let newly := newlyOf ps2
            let conflict := newly.any (fun s => s ∈ st.occupied)
            let occupied2 := st.occupied ++ newly
            if (ps2.filter (fun p => p.reservation_status = .SUCCESSFUL)).length
                = st.participants.length
            then .ok (.reserved (compact_slots ps2))
            else .ok (.next conflict ⟨ps2, occupied2⟩)

/-- Overall result of the reservation phase (`True` / `False`). -/
inductive ReservationResult where
  /-- Reservation completed; the compacted participants. -/
  | reserved (ps : List Participant)
  /-- `return False` (insufficient slots or round budget exhausted). -/
  | failed
deriving DecidableEq, Repr

/-- The bounded reservation loop (`for round_num in range(1, max_rounds+1)`),
with per-round randomness `pseudR`/`pickR` keyed by round number then id. -/
def reservation_loop (K P : Nat) (S : List Nat → Nat → Nat) (net : QKDNetwork) (m : Nat)
    (pseudR : Nat → Nat → List Nat) (pickR : Nat → Nat → Nat) :
    Nat → Nat → RState → Except Err ReservationResult
  | _, 0, _ => .ok .failed
  | r, fuel + 1, st =>
    match reservation_round K P S net m (pseudR r) (pickR r) st with
    | .error e => .error e
    | .ok .breakLoop => .ok .failed
    | .ok .insufficient => .ok .failed
    | .ok (.reserved ps) => .ok (.reserved ps)
    | .ok (.next _ st2) => reservation_loop K P S net m pseudR pickR (r + 1) fuel st2

/-- `QADRProtocol.run_slot_reservation`: `max_rounds = 2 n`, starting with an
empty occupied set. -/
def run_slot_reservation (K P : Nat) (S : List Nat → Nat → Nat) (net : QKDNetwork) (m : Nat)
    (pseudR : Nat → Nat → List Nat) (pickR : Nat → Nat → Nat) (ps0 : List Participant) :
    Except Err ReservationResult :=
  reservation_loop K P S net m pseudR pickR 1 (2 * ps0.length) ⟨ps0, []⟩

/-- One participant's data-round submission (`qadr/protocol.py` lines
190–198): build the message vector over the compact `n × W`-byte space at the
reassigned dense slot and mask it against every other participant. -/
def submitOne (K : Nat) (S : List Nat → Nat → Nat) (net : QKDNetwork) (n W : Nat)
    (p : Participant) : Except Err (List Nat) :=
  match p.create_vector p.message n W with
  | .error e => .error e
  | .ok v => p.mask_vector K S net v

/-- `QADRProtocol.run_data_submission`: refuse unless every participant is
successful, then have each build its message vector over the compact
`n × W`-byte space, mask it, and aggregate the batch. -/
def run_data_submission (K : Nat) (S : List Nat → Nat → Nat) (net : QKDNetwork) (W : Nat)
    (ps : List Participant) : Except Err (List Nat) :=
  if (ps.filter (fun p => p.reservation_status ≠ .SUCCESSFUL)).length > 0 then
    .error .notAllReserved
  else
    match exceptMapList (submitOne K S net ps.length W) ps with
    | .error e => .error e
    | .ok masked => aggregate_vectors masked

/-- Each participant masks its own vector (the batch the aggregator sees). -/
def maskedBatch (K : Nat) (S : List Nat → Nat → Nat) (net : QKDNetwork)
    (ps : List Participant) (vs : List (List Nat)) : Except Err (List (List Nat)) :=
  exceptMapList (fun pv => pv.1.mask_vector K S net pv.2) (ps.zip vs)

/-- Pure value of `mask_vector` when every key lookup and pad expansion
succeeds (proof device mirroring `maskFold`). -/
def maskFun (S : List Nat → Nat → Nat) (net : QKDNetwork) (selfId : Nat) :
    List Nat → List Nat → List Nat
  | [], acc => acc
  | other_pid :: rest, acc =>
    maskFun S net selfId rest
      (listXor acc (padOf S (net.secret (min selfId other_pid) (max selfId other_pid)) acc.length))

/-- Equality of `Except` results is decidable componentwise (used to evaluate
the embedded functions at concrete inputs). -/
instance {ε α : Type} [DecidableEq ε] [DecidableEq α] : DecidableEq (Except ε α) := fun a b =>
  match a, b with
  | .ok x, .ok y =>
    if h : x = y then isTrue (by rw [h]) else isFalse (by intro hc; cases hc; exact h rfl)
  | .error x, .error y =>
    if h : x = y then isTrue (by rw [h]) else isFalse (by intro hc; cases hc; exact h rfl)
  | .ok _, .error _ => isFalse (by intro hc; cases hc)
  | .error _, .ok _ => isFalse (by intro hc; cases hc)

def c1net : QKDNetwork := ⟨[0, 1], fun _ _ => [7]⟩

def c1S : List Nat → Nat → Nat := fun key i => key.getD 0 0 + i

def c1ps : List Participant := [Participant.init 0 [0, 1] [], Participant.init 1 [0, 1] []]

def c1vs : List (List Nat) := [[1, 2], [3, 4]]

def c8net : QKDNetwork := ⟨[3, 5], fun _ _ => [9]⟩

def c7p : Participant :=
  { defaultParticipant with chosen_slot_index := some 1, pseudonym := some [4] }

def c6p : Participant := { defaultParticipant with chosen_slot_index := some 0 }

def c5p : Participant := defaultParticipant

/-- Tests whether a round outcome is the insufficient-slots failure. -/
def RoundOutcome.isInsufficient : RoundOutcome → Bool
  | .insufficient => true
  | _ => false

/-- Tests whether a round outcome continues into another round. -/
def RoundOutcome.isNext : RoundOutcome → Bool
  | .next _ _ => true
  | _ => false

/-- The conflict-report flag of a continuing round outcome. -/
def RoundOutcome.conflictFlag : RoundOutcome → Bool
  | .next c _ => c
  | _ => false

/-- Unwraps an `ok` value, with a default for errors (concrete evaluation). -/
def okOr {α : Type} (d : α) : Except Err α → α
  | .ok a => a
  | .error _ => d

/-- The compacted participants of a completed round, `[]` otherwise. -/
def reservedOf : Except Err RoundOutcome → List Participant
  | .ok (.reserved ps) => ps
  | _ => []

def c2ps : List Participant :=
  [{ Participant.init 0 [0, 1] [10] with reservation_status := .SUCCESSFUL },
   { Participant.init 1 [0, 1] [20] with reservation_status := .SUCCESSFUL }]

def c3st : RState := ⟨[Participant.init 0 [0, 1] [], Participant.init 1 [0, 1] []], []⟩

def c3wst : RState := ⟨[Participant.init 0 [0, 1] []], []⟩

def c4net : QKDNetwork := ⟨[0, 1, 2], fun _ _ => [7]⟩

def c4st : RState :=
  ⟨[{ Participant.init 0 [0, 1, 2] [] with reservation_status := .SUCCESSFUL,
                                           chosen_slot_index := some 0 },
    Participant.init 1 [0, 1, 2] [],
    Participant.init 2 [0, 1, 2] []], [0]⟩

def c4ps1 : List Participant :=
  okOr [] (exceptMapList
    (prepOne (fun pid => [pid + 1]) (fun _ => 0) (availableOf 2 c4st.occupied))
    c4st.participants)

def c4masked : List (List Nat) :=
  okOr [] (exceptMapList (roundSubmitOne 1 1 c1S c4net 2) c4ps1)

def c4public : List Nat := okOr [] (aggregate_vectors c4masked)

def c9st : RState :=
  ⟨[{ Participant.init 0 [0, 1] [] with reservation_status := .SUCCESSFUL,
                                        chosen_slot_index := some 0 },
    Participant.init 1 [0, 1] []], [0]⟩

/-! ### Byte-level XOR lemmas -/

theorem xor_xor_xor_comm (a b c d : Nat) :
    (a ^^^ b) ^^^ (c ^^^ d) = (a ^^^ c) ^^^ (b ^^^ d) := by
  rw [Nat.xor_assoc, Nat.xor_assoc, ← Nat.xor_assoc b c d, Nat.xor_comm b c,
    Nat.xor_assoc c b d]

theorem listXor_length (a b : List Nat) (h : a.length = b.length) :
    (listXor a b).length = a.length := by
  simp [listXor, h]

theorem listXor_getD (a : List Nat) : ∀ (b : List Nat), a.length = b.length →
    ∀ k, (listXor a b).getD k 0 = a.getD k 0 ^^^ b.getD k 0 := by
  induction a with
  | nil =>
    intro b hb k
    cases b with
    | nil => simp [listXor]
    | cons y t => simp at hb
  | cons x t ih =>
    intro b hb k
    cases b with
    | nil => simp at hb
    | cons y u =>
      cases k with
      | zero => simp [listXor]
      | succ k =>
        have ht : t.length = u.length := by simpa using hb
        simpa [listXor] using ih u ht k

theorem xorNatAll_nil : xorNatAll [] = 0 := rfl

theorem xorNatAll_cons (x : Nat) (t : List Nat) :
    xorNatAll (x :: t) = x ^^^ xorNatAll t := rfl

theorem xorNatAll_map_xor {α : Type} (l : List α) (f g : α → Nat) :
    xorNatAll (l.map (fun a => f a ^^^ g a)) =
      xorNatAll (l.map f) ^^^ xorNatAll (l.map g) := by
  induction l with
  | nil => simp [xorNatAll_nil]
  | cons a t ih =>
    simp only [List.map_cons, xorNatAll_cons, ih]
    exact xor_xor_xor_comm (f a) (g a) (xorNatAll (t.map f)) (xorNatAll (t.map g))

theorem xorNatAll_map_zero {α : Type} (l : List α) (f : α → Nat)
    (h : ∀ a ∈ l, f a = 0) : xorNatAll (l.map f) = 0 := by
  induction l with
  | nil => rfl
  | cons a t ih =>
    have ha : f a = 0 := h a (by simp)
    have ht : xorNatAll (t.map f) = 0 := ih (fun a ha => h a (by simp [ha]))
    simp [xorNatAll_cons, ha, ht]

theorem xorNatAll_map_single {α : Type} [DecidableEq α] (l : List α) (f : α → Nat) (x : α) :
    x ∈ l → l.count x = 1 → (∀ y ∈ l, y ≠ x → f y = 0) →
    xorNatAll (l.map f) = f x := by
  induction l with
  | nil => intro hx; simp at hx
  | cons a t ih =>
    intro hx hc hz
    by_cases hax : a = x
    · subst hax
      have hcount : t.count a = 0 := by
        have := hc
        rw [List.count_cons_self] at this
        omega
      have hnot : a ∉ t := by
        intro hmem
        have := List.count_pos_iff.mpr hmem
        omega
      have ht : xorNatAll (t.map f) = 0 := by
        apply xorNatAll_map_zero
        intro y hy
        exact hz y (by simp [hy]) (fun hyx => hnot (hyx ▸ hy))
      simp [xorNatAll_cons, ht]
    · have hxt : x ∈ t := by
        cases hx with
        | head => exact absurd rfl hax
        | tail _ h => exact h
      have hfz : f a = 0 := hz a (by simp) hax
      have hct : t.count x = 1 := by
        rw [List.count_cons_of_ne (fun h => hax h.symm)] at hc
        exact hc
      have := ih hxt hct (fun y hy hyx => hz y (by simp [hy]) hyx)
      simp [xorNatAll_cons, hfz, this]

/-! ### `place` lemmas -/

theorem getD_range_map (f : Nat → Nat) (t k : Nat) :
    ((List.range t).map f).getD k 0 = if k < t then f k else 0 := by
  rw [List.getD_eq_getElem?_getD, List.getElem?_map]
  by_cases h : k < t
  · rw [List.getElem?_range h]
    simp [h]
  · have : (List.range t)[k]? = none := by
      apply List.getElem?_eq_none
      simpa using Nat.le_of_not_lt h
    simp [this, h]

theorem place_length (c : List Nat) (s t : Nat) : (place c s t).length = t := by
  simp [place]

theorem place_getD (c : List Nat) (s t k : Nat) :
    (place c s t).getD k 0 =
      if k < t ∧ s ≤ k ∧ k < s + c.length then c.getD (k - s) 0 else 0 := by
  rw [place, getD_range_map]
  by_cases h1 : k < t
  · by_cases h2 : s ≤ k ∧ k < s + c.length
    · simp [h1, h2]
    · simp [h1, h2]
  · simp [h1]

theorem place_getD_in (c : List Nat) (s t k : Nat)
    (h1 : k < t) (h2 : s ≤ k) (h3 : k < s + c.length) :
    (place c s t).getD k 0 = c.getD (k - s) 0 := by
  rw [place_getD]
  simp [h1, h2, h3]

theorem place_getD_out (c : List Nat) (s t k : Nat)
    (h : k < s ∨ s + c.length ≤ k) :
    (place c s t).getD k 0 = 0 := by
  rw [place_getD]
  rcases h with h | h
  · have : ¬ (s ≤ k) := by omega
    simp [this]
  · have : ¬ (k < s + c.length) := by omega
    simp [this]

/-! ### `exceptMapList` lemmas -/

theorem exceptMapList_ok {α β : Type} (f : α → Except Err β) (g : α → β) (l : List α)
    (h : ∀ a ∈ l, f a = .ok (g a)) : exceptMapList f l = .ok (l.map g) := by
  induction l with
  | nil => rfl
  | cons a t ih =>
    have ha : f a = .ok (g a) := h a (by simp)
    have ht := ih (fun a ha' => h a (by simp [ha']))
    simp [exceptMapList, ha, ht]

theorem exceptMapList_eq_ok {α β : Type} (f : α → Except Err β) (da : α) (db : β) :
    ∀ (l : List α) (l' : List β), exceptMapList f l = .ok l' →
      l'.length = l.length ∧ ∀ i, i < l.length → f (l.getD i da) = .ok (l'.getD i db) := by
  intro l
  induction l with
  | nil =>
    intro l' h
    simp only [exceptMapList] at h
    cases h
    simp
  | cons a t ih =>
    intro l' h
    simp only [exceptMapList] at h
    cases hfa : f a with
    | error e => rw [hfa] at h; cases h
    | ok b =>
      rw [hfa] at h
      cases hft : exceptMapList f t with
      | error e => rw [hft] at h; cases h
      | ok bs =>
        rw [hft] at h
        cases h
        obtain ⟨hlen, hpt⟩ := ih bs hft
        refine ⟨by simp [hlen], ?_⟩
        intro i hi
        cases i with
        | zero => simpa using hfa
        | succ i => simpa using hpt i (by simpa using hi)

/-! ### Masking: `maskFold` succeeds and computes `maskFun` -/

theorem padOf_length (S : List Nat → Nat → Nat) (key : List Nat) (L : Nat) :
    (padOf S key L).length = L := by simp [padOf]

theorem padOf_getD (S : List Nat → Nat → Nat) (key : List Nat) (L k : Nat) :
    (padOf S key L).getD k 0 = if k < L then S key k else 0 :=
  getD_range_map (S key) L k

theorem maskFold_ok (K : Nat) (S : List Nat → Nat → Nat) (net : QKDNetwork) (selfId : Nat)
    (hsec : ∀ a b, (net.secret a b).length = K) :
    ∀ (otherIds : List Nat) (acc : List Nat),
      (∀ j ∈ otherIds, j ≠ selfId ∧ selfId ∈ net.participant_ids ∧ j ∈ net.participant_ids) →
      maskFold K S net selfId otherIds acc = .ok (maskFun S net selfId otherIds acc) := by
  intro otherIds
  induction otherIds with
  | nil => intro acc _; rfl
  | cons j rest ih =>
    intro acc hmem
    obtain ⟨hne, hself, hj⟩ := hmem j (by simp)
    have hkey : net.get_key selfId j =
        .ok (net.secret (min selfId j) (max selfId j)) := by
      have hne' : selfId ≠ j := fun h => hne h.symm
      have hmin : min selfId j ∈ net.participant_ids := by
        rcases le_total selfId j with h | h
        · rwa [min_eq_left h]
        · rwa [min_eq_right h]
      have hmax : max selfId j ∈ net.participant_ids := by
        rcases le_total selfId j with h | h
        · rwa [max_eq_right h]
        · rwa [max_eq_left h]
      simp [QKDNetwork.get_key, hne', hmin, hmax]
    have hprf : qs_prf K S (net.secret (min selfId j) (max selfId j)) acc.length =
        .ok (padOf S (net.secret (min selfId j) (max selfId j)) acc.length) := by
      simp [qs_prf, hsec, padOf]
    simp only [maskFold, hkey, hprf, maskFun]
    exact ih _ (fun j' hj' => hmem j' (by simp [hj']))

theorem maskFun_length (S : List Nat → Nat → Nat) (net : QKDNetwork) (selfId : Nat) :
    ∀ (otherIds : List Nat) (acc : List Nat),
      (maskFun S net selfId otherIds acc).length = acc.length := by
  intro otherIds
  induction otherIds with
  | nil => intro acc; rfl
  | cons j rest ih =>
    intro acc
    rw [maskFun, ih, listXor_length _ _ (by rw [padOf_length])]

theorem maskFun_getD (S : List Nat → Nat → Nat) (net : QKDNetwork) (selfId : Nat) :
    ∀ (otherIds : List Nat) (acc : List Nat) (k : Nat),
      (maskFun S net selfId otherIds acc).getD k 0 =
        acc.getD k 0 ^^^
          xorNatAll (otherIds.map (fun j =>
            (padOf S (net.secret (min selfId j) (max selfId j)) acc.length).getD k 0)) := by
  intro otherIds
  induction otherIds with
  | nil => intro acc k; simp [maskFun, xorNatAll_nil]
  | cons j rest ih =>
    intro acc k
    have hlen : (listXor acc
        (padOf S (net.secret (min selfId j) (max selfId j)) acc.length)).length
        = acc.length := listXor_length _ _ (by rw [padOf_length])
    rw [maskFun, ih, hlen,
      listXor_getD _ _ (by rw [padOf_length]), List.map_cons, xorNatAll_cons,
      Nat.xor_assoc]

/-! ### Aggregation lemmas -/

theorem foldl_listXor_length : ∀ (rest : List (List Nat)) (v : List Nat),
    (∀ w ∈ rest, w.length = v.length) → (rest.foldl listXor v).length = v.length := by
  intro rest
  induction rest with
  | nil => intro v _; rfl
  | cons w t ih =>
    intro v h
    have hw : w.length = v.length := h w (by simp)
    have hlen : (listXor v w).length = v.length := listXor_length _ _ hw.symm
    rw [List.foldl_cons, ih (listXor v w) (fun u hu => by rw [hlen]; exact h u (by simp [hu])),
      hlen]

theorem foldl_listXor_getD : ∀ (rest : List (List Nat)) (v : List Nat),
    (∀ w ∈ rest, w.length = v.length) → ∀ k,
      (rest.foldl listXor v).getD k 0 =
        v.getD k 0 ^^^ xorNatAll (rest.map (fun w => w.getD k 0)) := by
  intro rest
  induction rest with
  | nil => intro v _ k; simp [xorNatAll_nil]
  | cons w t ih =>
    intro v h k
    have hw : w.length = v.length := h w (by simp)
    have hlen : (listXor v w).length = v.length := listXor_length _ _ hw.symm
    rw [List.foldl_cons,
      ih (listXor v w) (fun u hu => by rw [hlen]; exact h u (by simp [hu])) k,
      listXor_getD _ _ hw.symm, List.map_cons, xorNatAll_cons, Nat.xor_assoc]

theorem aggregate_vectors_ok (v : List Nat) (rest : List (List Nat))
    (h : ∀ w ∈ rest, w.length = v.length) :
    aggregate_vectors (v :: rest) = .ok (rest.foldl listXor v) := by
  have hall : rest.all (fun w => w.length == v.length) = true := by
    rw [List.all_eq_true]
    intro w hw
    exact beq_iff_eq.mpr (h w hw)
  simp [aggregate_vectors, hall]

/-! ### The DC-net cancellation core: pads indexed by unordered pairs of a
duplicate-free id list XOR to zero, because each pair contributes twice. -/

theorem xorNatAll_pairs_cancel (h : Nat → Nat → Nat) (hsym : ∀ i j, h i j = h j i) :
    ∀ (ids : List Nat), ids.Nodup →
      xorNatAll (ids.map (fun i =>
        xorNatAll ((ids.filter (fun j => j ≠ i)).map (h i)))) = 0 := by
  intro ids
  induction ids with
  | nil => intro _; rfl
  | cons x rest ih =>
    intro hnd
    have hx : x ∉ rest := (List.nodup_cons.mp hnd).1
    have hrest : rest.Nodup := (List.nodup_cons.mp hnd).2
    have f1 : (x :: rest).filter (fun j => j ≠ x) = rest := by
      have h1 : (x :: rest).filter (fun j => j ≠ x) = rest.filter (fun j => j ≠ x) := by
        simp
      rw [h1, List.filter_eq_self]
      intro a ha
      simp only [ne_eq, decide_eq_true_eq]
      exact fun hax => hx (hax ▸ ha)
    have f2 : ∀ i ∈ rest, (x :: rest).filter (fun j => j ≠ i)
        = x :: rest.filter (fun j => j ≠ i) := by
      intro i hi
      rw [List.filter_cons]
      have hxi : x ≠ i := fun hxi => hx (hxi ▸ hi)
      simp [hxi]
    rw [List.map_cons, xorNatAll_cons, f1]
    have f3 : rest.map (fun i =>
          xorNatAll (((x :: rest).filter (fun j => j ≠ i)).map (h i)))
        = rest.map (fun i =>
          h i x ^^^ xorNatAll ((rest.filter (fun j => j ≠ i)).map (h i))) := by
      apply List.map_congr_left
      intro i hi
      rw [f2 i hi, List.map_cons, xorNatAll_cons]
    rw [f3, xorNatAll_map_xor rest (fun i => h i x)
      (fun i => xorNatAll ((rest.filter (fun j => j ≠ i)).map (h i))), ih hrest,
      Nat.xor_zero]
    have f4 : rest.map (fun i => h i x) = rest.map (h x) :=
      List.map_congr_left (fun i _ => hsym i x)
    rw [f4, Nat.xor_self]

/-- Pointwise cancellation for a batch: each participant masks its own
vector against all others, and the XOR of all masked bytes at any position
equals the XOR of the unmasked bytes there. -/
theorem masked_sum_cancel (L : Nat) (S : List Nat → Nat → Nat) (net : QKDNetwork)
    (pv : List (Participant × List Nat))
    (hnd : (pv.map (fun q => q.1.id)).Nodup)
    (hop : ∀ q ∈ pv, q.1.other_participant_ids
        = (pv.map (fun q' => q'.1.id)).filter (fun j => j ≠ q.1.id))
    (hL : ∀ q ∈ pv, q.2.length = L) (k : Nat) :
    xorNatAll (pv.map (fun q =>
        (maskFun S net q.1.id q.1.other_participant_ids q.2).getD k 0))
      = xorNatAll (pv.map (fun q => q.2.getD k 0)) := by
  set ids := pv.map (fun q => q.1.id) with hids
  have step1 : pv.map (fun q =>
        (maskFun S net q.1.id q.1.other_participant_ids q.2).getD k 0)
      = pv.map (fun q => q.2.getD k 0 ^^^
          xorNatAll ((ids.filter (fun j => j ≠ q.1.id)).map (fun j =>
            (padOf S (net.secret (min q.1.id j) (max q.1.id j)) L).getD k 0))) := by
    apply List.map_congr_left
    intro q hq
    rw [maskFun_getD, hop q hq, hL q hq]
  rw [step1, xorNatAll_map_xor pv (fun q => q.2.getD k 0)
    (fun q => xorNatAll ((ids.filter (fun j => j ≠ q.1.id)).map (fun j =>
      (padOf S (net.secret (min q.1.id j) (max q.1.id j)) L).getD k 0)))]
  have step2 : pv.map (fun q =>
        xorNatAll ((ids.filter (fun j => j ≠ q.1.id)).map (fun j =>
          (padOf S (net.secret (min q.1.id j) (max q.1.id j)) L).getD k 0)))
      = ids.map (fun i =>
          xorNatAll ((ids.filter (fun j => j ≠ i)).map (fun j =>
            (padOf S (net.secret (min i j) (max i j)) L).getD k 0))) := by
    rw [hids, List.map_map]
    rfl
  rw [step2, xorNatAll_pairs_cancel
    (fun i j => (padOf S (net.secret (min i j) (max i j)) L).getD k 0)
    (fun i j => by simp only [min_comm i j, max_comm i j]) ids hnd, Nat.xor_zero]

theorem list_eq_of_getD (a b : List Nat) (hlen : a.length = b.length)
    (h : ∀ k, a.getD k 0 = b.getD k 0) : a = b := by
  apply List.ext_getElem hlen
  intro n h1 h2
  have hk := h n
  rw [List.getD_eq_getElem?_getD, List.getD_eq_getElem?_getD,
    List.getElem?_eq_getElem h1, List.getElem?_eq_getElem h2] at hk
  simpa using hk

theorem aggregate_vectors_eq_ok_of (vs : List (List Nat)) (L : Nat) (hne : vs ≠ [])
    (h : ∀ v ∈ vs, v.length = L) :
    ∃ A, aggregate_vectors vs = .ok A ∧ A.length = L ∧
      ∀ k, A.getD k 0 = xorNatAll (vs.map (fun v => v.getD k 0)) := by
  cases vs with
  | nil => exact absurd rfl hne
  | cons v rest =>
    have hv : v.length = L := h v (by simp)
    have hrest : ∀ w ∈ rest, w.length = v.length := fun w hw => by
      rw [h w (by simp [hw]), hv]
    refine ⟨rest.foldl listXor v, aggregate_vectors_ok v rest hrest, ?_, ?_⟩
    · rw [foldl_listXor_length rest v hrest, hv]
    · intro k
      rw [foldl_listXor_getD rest v hrest k, List.map_cons, xorNatAll_cons]

/-- C1.  For every participant set of `n ≥ 2` distinct ids sharing a
symmetric pairwise key store, and every list pairing each participant with an
equal-length vector, aggregating the vectors after each participant masks its
own vector against all other participants (`Participant.mask_vector`) equals
aggregating the unmasked vectors, bit for bit: every pairwise pad is XORed in
by exactly the two members of its pair and cancels. -/
theorem C1_masking_cancellation (K L : Nat) (S : List Nat → Nat → Nat) (net : QKDNetwork)
    (ps : List Participant) (vs : List (List Nat))
    (hn : 2 ≤ ps.length)
    (hnd : (ps.map (fun p => p.id)).Nodup)
    (hop : ∀ p ∈ ps, p.other_participant_ids
        = (ps.map (fun p' => p'.id)).filter (fun j => j ≠ p.id))
    (hin : ∀ p ∈ ps, p.id ∈ net.participant_ids)
    (hsec : ∀ a b, (net.secret a b).length = K)
    (hlen : vs.length = ps.length)
    (hL : ∀ v ∈ vs, v.length = L) :
    ∃ masked, maskedBatch K S net ps vs = .ok masked ∧
      aggregate_vectors masked = aggregate_vectors vs := by
  have hple : ps.length ≤ vs.length := le_of_eq hlen.symm
  have hvle : vs.length ≤ ps.length := le_of_eq hlen
  have hfst : (ps.zip vs).map Prod.fst = ps := List.map_fst_zip ps vs hple
  have hsnd : (ps.zip vs).map Prod.snd = vs := List.map_snd_zip ps vs hvle
  have hids : (ps.zip vs).map (fun q => q.1.id) = ps.map (fun p => p.id) := by
    conv_rhs => rw [← hfst]
    rw [List.map_map]
    rfl
  have hmask : ∀ q ∈ ps.zip vs,
      q.1.mask_vector K S net q.2
        = .ok (maskFun S net q.1.id q.1.other_participant_ids q.2) := by
    intro q hq
    obtain ⟨hq1, hq2⟩ := List.of_mem_zip hq
    simp only [Participant.mask_vector]
    apply maskFold_ok K S net q.1.id hsec
    intro j hj
    rw [hop q.1 hq1] at hj
    have hj1 : j ∈ ps.map (fun p => p.id) := List.mem_of_mem_filter hj
    have hj2 : j ≠ q.1.id := by simpa using List.of_mem_filter hj
    obtain ⟨p', hp', hpj⟩ := List.mem_map.mp hj1
    exact ⟨hj2, hin q.1 hq1, hpj ▸ hin p' hp'⟩
  have hbatch : maskedBatch K S net ps vs
      = .ok ((ps.zip vs).map (fun q =>
          maskFun S net q.1.id q.1.other_participant_ids q.2)) := by
    rw [maskedBatch]
    exact exceptMapList_ok _ _ _ hmask
  set ms := (ps.zip vs).map (fun q =>
    maskFun S net q.1.id q.1.other_participant_ids q.2) with hms
  have hmsL : ∀ w ∈ ms, w.length = L := by
    intro w hw
    rw [hms] at hw
    obtain ⟨q, hq, hqw⟩ := List.mem_map.mp hw
    obtain ⟨_, hq2⟩ := List.of_mem_zip hq
    rw [← hqw, maskFun_length]
    exact hL q.2 hq2
  have hzlen : (ps.zip vs).length = ps.length := by
    rw [List.length_zip, hlen, Nat.min_self]
  have hvne : vs ≠ [] := by
    intro hnil
    rw [hnil] at hlen
    simp at hlen
    omega
  have hmsne : ms ≠ [] := by
    intro hnil
    have : ms.length = 0 := by rw [hnil]; rfl
    rw [hms, List.length_map, hzlen] at this
    omega
  obtain ⟨A, hA, hAlen, hAget⟩ := aggregate_vectors_eq_ok_of vs L hvne hL
  obtain ⟨B, hB, hBlen, hBget⟩ := aggregate_vectors_eq_ok_of ms L hmsne hmsL
  have hBA : B = A := by
    apply list_eq_of_getD B A (by rw [hBlen, hAlen])
    intro k
    rw [hBget k, hAget k, hms, List.map_map]
    have hcancel := masked_sum_cancel L S net (ps.zip vs)
      (by rw [hids]; exact hnd)
      (by
        intro q hq
        rw [hids]
        exact hop q.1 (List.of_mem_zip hq).1)
      (by
        intro q hq
        exact hL q.2 (List.of_mem_zip hq).2) k
    have hsnd2 : (ps.zip vs).map (fun q => q.2.getD k 0)
        = vs.map (fun v => v.getD k 0) := by
      conv_rhs => rw [← hsnd]
      rw [List.map_map]
      rfl
    rw [← hsnd2, ← hcancel]
    rfl
  exact ⟨ms, hbatch, by rw [hB, hA, hBA]⟩

/-- Witness for C1 at a concrete 2-participant instance. -/
theorem C1_witness :
    (∀ a b, (c1net.secret a b).length = 1) ∧
    ∃ masked, maskedBatch 1 c1S c1net c1ps c1vs = .ok masked ∧
      aggregate_vectors masked = aggregate_vectors c1vs :=
  ⟨fun _ _ => rfl,
    C1_masking_cancellation 1 2 c1S c1net c1ps c1vs (by decide) (by decide)
      (by decide) (by decide) (fun _ _ => rfl) (by decide) (by decide)⟩

/-- C10.  For every SHAKE-style stream, every secret of the right length and
every pair of output lengths `L1 ≤ L2`, `qs_prf(secret, L1)` is exactly the
first `L1` bytes of `qs_prf(secret, L2)`: the XOF is seeded by the key alone,
so outputs of different lengths are prefixes of one key-determined stream (and
`qs_prf` is a deterministic function of the secret and the length).  The
equality also holds degenerately for an ill-sized key, where both calls raise
the same error. -/
theorem C10_prf_prefix_consistency (K : Nat) (S : List Nat → Nat → Nat) (key : List Nat)
    (L1 L2 : Nat) (h : L1 ≤ L2) :
    Except.map (fun l => l.take L1) (qs_prf K S key L2) = qs_prf K S key L1 := by
  by_cases hk : key.length ≠ K
  · simp [qs_prf, hk, Except.map]
  · simp only [qs_prf, hk, if_false, Except.map]
    rw [← List.map_take, List.take_range, Nat.min_eq_left h]

/-- Witness for C10 at a concrete key and lengths 1 ≤ 2. -/
theorem C10_witness :
    1 ≤ 2 ∧
    Except.map (fun l => l.take 1) (qs_prf 1 c1S [5] 2) = qs_prf 1 c1S [5] 1 :=
  ⟨by decide, C10_prf_prefix_consistency 1 c1S [5] 1 2 (by decide)⟩

/-- C8.  `get_key` is symmetric in its two ids; it fails with the self-pairing
error when they coincide, fails with the unknown-pair error when either id is
unregistered, and otherwise returns the stored secret of the normalized pair. -/
theorem C8_pairwise_key_lookup (net : QKDNetwork) (a b : Nat) :
    net.get_key a b = net.get_key b a
    ∧ (a = b → net.get_key a b = .error .selfPairing)
    ∧ (a ≠ b → (a ∉ net.participant_ids ∨ b ∉ net.participant_ids) →
        net.get_key a b = .error .unknownPair)
    ∧ (a ≠ b → a ∈ net.participant_ids → b ∈ net.participant_ids →
        net.get_key a b = .ok (net.secret (min a b) (max a b))) := by
  refine ⟨?_, ?_, ?_, ?_⟩
  · by_cases hab : a = b
    · simp [QKDNetwork.get_key, hab]
    · have hba : ¬ b = a := fun hh => hab hh.symm
      simp [QKDNetwork.get_key, hab, hba, min_comm a b, max_comm a b]
  · intro h
    simp [QKDNetwork.get_key, h]
  · intro hne hnot
    have hcond : ¬ (min a b ∈ net.participant_ids ∧ max a b ∈ net.participant_ids) := by
      rcases le_total a b with h | h
      · rw [min_eq_left h, max_eq_right h]
        rcases hnot with h1 | h1
        · exact fun hc => h1 hc.1
        · exact fun hc => h1 hc.2
      · rw [min_eq_right h, max_eq_left h]
        rcases hnot with h1 | h1
        · exact fun hc => h1 hc.2
        · exact fun hc => h1 hc.1
    simp [QKDNetwork.get_key, hne, hcond]
  · intro hne ha hb
    have hmin : min a b ∈ net.participant_ids := by
      rcases le_total a b with h | h
      · rwa [min_eq_left h]
      · rwa [min_eq_right h]
    have hmax : max a b ∈ net.participant_ids := by
      rcases le_total a b with h | h
      · rwa [max_eq_right h]
      · rwa [max_eq_left h]
    simp [QKDNetwork.get_key, hne, hmin, hmax]

/-- Witness for C8 at a concrete two-id store. -/
theorem C8_witness :
    c8net.get_key 3 5 = c8net.get_key 5 3
    ∧ c8net.get_key 3 3 = .error .selfPairing
    ∧ c8net.get_key 3 7 = .error .unknownPair
    ∧ c8net.get_key 3 5 = .ok [9] :=
  ⟨(C8_pairwise_key_lookup c8net 3 5).1,
   (C8_pairwise_key_lookup c8net 3 3).2.1 rfl,
   (C8_pairwise_key_lookup c8net 3 7).2.2.1 (by decide) (Or.inr (by decide)),
   by
     rw [(C8_pairwise_key_lookup c8net 3 5).2.2.2 (by decide) (by decide) (by decide)]
     decide⟩

/-- C7.  `verify_reservation` is the identity when the slot or the pseudonym
is unset; otherwise it sets the status to `SUCCESSFUL` exactly when the
pseudonym-sized region of the public vector at offset
`chosenSlot × slotWidth` equals the own pseudonym and to `COLLIDED` in every
other case, leaving every other field unchanged. -/
theorem C7_verify_reservation_spec (P : Nat) (public : List Nat) (slotW : Nat)
    (p : Participant) :
    ((p.chosen_slot_index = none ∨ p.pseudonym = none) →
        p.verify_reservation P public slotW = p)
    ∧ (∀ s pn, p.chosen_slot_index = some s → p.pseudonym = some pn →
        (((p.verify_reservation P public slotW).reservation_status = .SUCCESSFUL
            ↔ (public.drop (s * slotW)).take P = pn)
          ∧ ((p.verify_reservation P public slotW).reservation_status = .COLLIDED
            ↔ (public.drop (s * slotW)).take P ≠ pn)
          ∧ (p.verify_reservation P public slotW).id = p.id
          ∧ (p.verify_reservation P public slotW).message = p.message
          ∧ (p.verify_reservation P public slotW).chosen_slot_index = p.chosen_slot_index
          ∧ (p.verify_reservation P public slotW).pseudonym = p.pseudonym
          ∧ (p.verify_reservation P public slotW).other_participant_ids
            = p.other_participant_ids)) := by
  constructor
  · intro h
    rcases hs : p.chosen_slot_index with _ | s
    · rcases hp : p.pseudonym with _ | pn <;>
        simp [Participant.verify_reservation, hs, hp]
    · rcases h with h | h
      · exact absurd h (by simp [hs])
      · simp [Participant.verify_reservation, hs, h]
  · intro s pn hs hpn
    by_cases heq : (public.drop (s * slotW)).take P = pn
    · simp [Participant.verify_reservation, hs, hpn, heq]
    · simp [Participant.verify_reservation, hs, hpn, heq]

/-- Witness for C7: a lone occupant of slot 1 recovers its pseudonym. -/
theorem C7_witness :
    c7p.chosen_slot_index = some 1 ∧ c7p.pseudonym = some [4] ∧
    (c7p.verify_reservation 1 [9, 4] 1).reservation_status = .SUCCESSFUL :=
  ⟨rfl, rfl, ((C7_verify_reservation_spec 1 [9, 4] 1 c7p).2 1 [4] rfl rfl).1.mpr (by decide)⟩

/-- C6 counterexample.  With slot width 1 and slot count 2, content `[7, 7]`
of length 2 > slotWidth = 1 does NOT fail with any content-too-large error:
`create_vector` returns a vector in which the second content byte has spilled
into the next slot.  The claimed `ContentTooLarge` check does not exist. -/
theorem C6_counterexample :
    c6p.create_vector [7, 7] 2 1 = .ok [7, 7] ∧ ([7, 7] : List Nat).length > 1 := by
  constructor
  · decide
  · decide

/-- C6 as amended.  `create_vector` fails with the slot-not-chosen error when
no slot is set; there is no content-size check against the slot width: content
is written starting at offset `chosenSlot × slotWidth` (possibly spanning
following slots) into a zero vector of `slotCount × slotWidth` bytes.
Single-byte content never fails — it broadcasts, writing in range and
silently no-opping (zero vector) when the offset is past the end — and the
only size failure is numpy's broadcast error when content of length ≥ 2 would
run past the end of the whole vector. -/
theorem C6_amended_create_vector (p : Participant) (content : List Nat) (n w s : Nat) :
    (p.chosen_slot_index = none → p.create_vector content n w = .error .slotNotChosen)
    ∧ (p.chosen_slot_index = some s → s * w + content.length ≤ n * w →
        p.create_vector content n w = .ok (place content (s * w) (n * w))
        ∧ (place content (s * w) (n * w)).length = n * w
        ∧ (∀ k, k < n * w → s * w ≤ k → k < s * w + content.length →
            (place content (s * w) (n * w)).getD k 0 = content.getD (k - s * w) 0)
        ∧ (∀ k, k < s * w ∨ s * w + content.length ≤ k →
            (place content (s * w) (n * w)).getD k 0 = 0))
    ∧ (p.chosen_slot_index = some s → content.length = 1 →
        p.create_vector content n w = .ok (place content (s * w) (n * w)))
    ∧ (p.chosen_slot_index = some s → 2 ≤ content.length →
        n * w < s * w + content.length →
        p.create_vector content n w = .error .broadcastMismatch) := by
  refine ⟨?_, ?_, ?_, ?_⟩
  · intro h
    simp [Participant.create_vector, h]
  · intro hs hle
    have hsw : s * w ≤ n * w := by omega
    have hcond : min (s * w + content.length) (n * w) - min (s * w) (n * w)
        = content.length := by
      rw [Nat.min_eq_left hle, Nat.min_eq_left hsw]
      omega
    refine ⟨by simp [Participant.create_vector, hs, hcond], place_length _ _ _, ?_, ?_⟩
    · intro k h1 h2 h3
      exact place_getD_in content (s * w) (n * w) k h1 h2 h3
    · intro k h
      exact place_getD_out content (s * w) (n * w) k h
  · intro hs hone
    simp [Participant.create_vector, hs, hone]
  · intro hs htwo hlt
    have hcond : min (s * w + content.length) (n * w) - min (s * w) (n * w)
        ≠ content.length := by
      by_cases hsw : s * w ≤ n * w
      · rw [Nat.min_eq_right (by omega), Nat.min_eq_left hsw]
        omega
      · rw [Nat.min_eq_right (by omega), Nat.min_eq_right (by omega)]
        omega
    have hone : content.length ≠ 1 := by omega
    simp [Participant.create_vector, hs, hcond, hone]

/-- Witness for the amended C6: content of exactly the slot width lands at the
chosen slot's offset, and single-byte content aimed past the end of the
vector is a silent no-op yielding the untouched zero vector. -/
theorem C6_witness :
    c6p.chosen_slot_index = some 0 ∧ 0 * 1 + ([5] : List Nat).length ≤ 3 * 1 ∧
    c6p.create_vector [5] 3 1 = .ok (place [5] (0 * 1) (3 * 1)) ∧
    c7p.create_vector [5] 1 1 = .ok (place [5] (1 * 1) (1 * 1)) :=
  ⟨rfl, by decide, ((C6_amended_create_vector c6p [5] 3 1 0).2.1 rfl (by decide)).1,
   (C6_amended_create_vector c7p [5] 1 1 1).2.2.1 rfl rfl⟩

/-- C5 counterexample.  `choose_slot` receives only the COUNT of available
slots; with `availableSlots = [3]` (count 1) it records slot 0, which is not
a member of the available set, refuting the membership part of the claim. -/
theorem C5_counterexample :
    Except.map (fun pr => pr.1.chosen_slot_index) (c5p.choose_slot 0 ([3] : List Nat).length)
      = .ok (some 0)
    ∧ Except.map Prod.snd (c5p.choose_slot 0 ([3] : List Nat).length) = .ok 0
    ∧ (0 : Nat) ∉ ([3] : List Nat) := by
  refine ⟨by decide, by decide, by decide⟩

/-- C5 as amended.  The reservation loop itself bypasses `choose_slot` and
records `np.random.choice(availableSlots)`, which IS a member of the
available set, and `np.random.choice` raises on an empty set; the
`choose_slot` method, by contrast, records a uniform index below the given
count (raising on count 0) with no membership guarantee. -/
theorem C5_amended_slot_choice (pseud : Nat → List Nat) (pick : Nat → Nat)
    (available : List Nat) (p : Participant) (r n : Nat)
    (hp : p.reservation_status ≠ .SUCCESSFUL) (hav : available ≠ []) :
    (∃ s, prepOne pseud pick available p
        = .ok { p with reservation_status := .PENDING,
                       pseudonym := some (pseud p.id),
                       chosen_slot_index := some s }
      ∧ s ∈ available)
    ∧ np_random_choice r [] = .error .randEmptyRange
    ∧ p.choose_slot r 0 = .error .randEmptyRange
    ∧ (n ≠ 0 → Except.map Prod.snd (p.choose_slot r n) = .ok (r % n) ∧ r % n < n) := by
  refine ⟨?_, rfl, rfl, ?_⟩
  · have hlt : pick p.id % available.length < available.length :=
      Nat.mod_lt _ (List.length_pos.mpr hav)
    have hget : available.getD (pick p.id % available.length) 0
        = available[pick p.id % available.length] := by
      rw [List.getD_eq_getElem?_getD, List.getElem?_eq_getElem hlt]
      rfl
    refine ⟨available.getD (pick p.id % available.length) 0, ?_, ?_⟩
    · simp [prepOne, hp, np_random_choice, hav, Participant.generate_new_pseudonym]
    · rw [hget]
      exact List.getElem_mem hlt
  · intro hn
    constructor
    · simp [Participant.choose_slot, hn, Except.map]
    · exact Nat.mod_lt _ (Nat.pos_of_ne_zero hn)

/-- Witness for the amended C5 at a concrete available set `[4, 6]`. -/
theorem C5_witness :
    c5p.reservation_status ≠ .SUCCESSFUL ∧ ([4, 6] : List Nat) ≠ [] ∧
    ∃ s, prepOne (fun _ => [8]) (fun _ => 3) [4, 6] c5p
        = .ok { c5p with reservation_status := .PENDING,
                         pseudonym := some [8],
                         chosen_slot_index := some s }
      ∧ s ∈ ([4, 6] : List Nat) :=
  ⟨by decide, by decide,
   (C5_amended_slot_choice (fun _ => [8]) (fun _ => 3) [4, 6] c5p 5 2
      (by decide) (by decide)).1⟩

/-! ### Sorting and rank lemmas for the compaction step -/

theorem mem_insertById (p x : Participant) :
    ∀ (l : List Participant), x ∈ insertById p l ↔ x = p ∨ x ∈ l := by
  intro l
  induction l with
  | nil => simp [insertById]
  | cons q t ih =>
    by_cases h : p.id ≤ q.id
    · simp [insertById, h]
    · simp [insertById, h, ih]
      tauto

theorem insertById_perm (p : Participant) :
    ∀ (l : List Participant), (insertById p l).Perm (p :: l) := by
  intro l
  induction l with
  | nil => simp [insertById]
  | cons q t ih =>
    by_cases h : p.id ≤ q.id
    · simp [insertById, h]
    · rw [insertById, if_neg h]
      exact ((ih.cons q).trans (List.Perm.swap p q t))

theorem sortById_perm : ∀ (ps : List Participant), (sortById ps).Perm ps := by
  intro ps
  induction ps with
  | nil => simp [sortById]
  | cons p t ih =>
    rw [sortById]
    exact (insertById_perm p (sortById t)).trans (ih.cons p)

theorem insertById_pairwise (p : Participant) :
    ∀ (l : List Participant), List.Pairwise (fun a b => a.id ≤ b.id) l →
      List.Pairwise (fun a b => a.id ≤ b.id) (insertById p l) := by
  intro l
  induction l with
  | nil => intro _; simp [insertById]
  | cons q t ih =>
    intro hs
    rw [List.pairwise_cons] at hs
    obtain ⟨hq, ht⟩ := hs
    by_cases h : p.id ≤ q.id
    · rw [insertById, if_pos h, List.pairwise_cons]
      refine ⟨?_, List.pairwise_cons.mpr ⟨hq, ht⟩⟩
      intro x hx
      rcases List.mem_cons.mp hx with hx | hx
      · rw [hx]; exact h
      · exact le_trans h (hq x hx)
    · rw [insertById, if_neg h, List.pairwise_cons]
      refine ⟨?_, ih ht⟩
      intro x hx
      rcases (mem_insertById p x t).mp hx with hx | hx
      · rw [hx]; exact le_of_not_le h
      · exact hq x hx

theorem sortById_pairwise : ∀ (ps : List Participant),
    List.Pairwise (fun a b => a.id ≤ b.id) (sortById ps) := by
  intro ps
  induction ps with
  | nil => simp [sortById]
  | cons p t ih => exact insertById_pairwise p (sortById t) ih

theorem posOf_lt_length {α : Type} [DecidableEq α] (a : α) :
    ∀ (l : List α), a ∈ l → posOf a l < l.length := by
  intro l
  induction l with
  | nil => intro h; simp at h
  | cons b t ih =>
    intro h
    by_cases hab : a = b
    · simp [posOf, hab]
    · have hat : a ∈ t := by
        rcases List.mem_cons.mp h with h | h
        · exact absurd h hab
        · exact h
      simpa [posOf, hab] using ih hat

theorem getD_posOf {α : Type} [DecidableEq α] (a d : α) :
    ∀ (l : List α), a ∈ l → l.getD (posOf a l) d = a := by
  intro l
  induction l with
  | nil => intro h; simp at h
  | cons b t ih =>
    intro h
    by_cases hab : a = b
    · simp [posOf, hab]
    · have hat : a ∈ t := by
        rcases List.mem_cons.mp h with h | h
        · exact absurd h hab
        · exact h
      simpa [posOf, hab] using ih hat

theorem posOf_getD {α : Type} [DecidableEq α] (d : α) :
    ∀ (l : List α), l.Nodup → ∀ i, i < l.length → posOf (l.getD i d) l = i := by
  intro l
  induction l with
  | nil => intro _ i hi; simp at hi
  | cons b t ih =>
    intro hnd i hi
    obtain ⟨hb, ht⟩ := List.nodup_cons.mp hnd
    cases i with
    | zero => simp [posOf]
    | succ i =>
      have hi' : i < t.length := by simpa using hi
      have hmem : t.getD i d ∈ t := by
        rw [List.getD_eq_getElem?_getD, List.getElem?_eq_getElem hi']
        exact List.getElem_mem hi'
      have hne : t.getD i d ≠ b := fun h => hb (h ▸ hmem)
      rw [List.getD_cons_succ, posOf, if_neg hne, ih ht i hi']

theorem idRank_lt (ids : List Nat) (a : Nat) (h : a ∈ ids) : idRank ids a < ids.length := by
  rw [idRank]
  rcases Nat.lt_or_ge (ids.countP (fun b => b < a)) ids.length with hlt | hge
  · exact hlt
  · exfalso
    have heq : ids.countP (fun b => b < a) = ids.length :=
      le_antisymm (List.countP_le_length _) hge
    have := List.countP_eq_length.mp heq a h
    simp at this

theorem posOf_pairwise_eq_idRank (p : Participant) :
    ∀ (l : List Participant), List.Pairwise (fun a b => a.id ≤ b.id) l →
      (l.map (fun q => q.id)).Nodup → p ∈ l →
      posOf p l = idRank (l.map (fun q => q.id)) p.id := by
  intro l
  induction l with
  | nil => intro _ _ h; simp at h
  | cons q t ih =>
    intro hs hnd hp
    rw [List.pairwise_cons] at hs
    obtain ⟨hq, ht⟩ := hs
    rw [List.map_cons, List.nodup_cons] at hnd
    obtain ⟨hqid, htnd⟩ := hnd
    by_cases hpq : p = q
    · rw [hpq, posOf, if_pos rfl, idRank, List.map_cons, List.countP_cons]
      have hzero : (t.map (fun q' => q'.id)).countP (fun b => b < q.id) = 0 := by
        rw [List.countP_eq_zero]
        intro b hb
        obtain ⟨x, hx, hxb⟩ := List.mem_map.mp hb
        simp only [decide_eq_true_eq]
        rw [← hxb]
        exact Nat.not_lt.mpr (hq x hx)
      simp [hzero]
    · have hpt : p ∈ t := by
        rcases List.mem_cons.mp hp with h | h
        · exact absurd h hpq
        · exact h
      have hqlt : q.id < p.id := by
        have hle : q.id ≤ p.id := hq p hpt
        have hne : q.id ≠ p.id := by
          intro h
          exact hqid (h ▸ List.mem_map.mpr ⟨p, hpt, rfl⟩)
        omega
      rw [posOf, if_neg hpq, idRank, List.map_cons, List.countP_cons,
        ih ht htnd hpt, idRank]
      simp [hqlt]

theorem posOf_sortById_eq_idRank (ps : List Participant) (p : Participant)
    (hnd : (ps.map (fun q => q.id)).Nodup) (hp : p ∈ ps) :
    posOf p (sortById ps) = idRank (ps.map (fun q => q.id)) p.id := by
  have hperm := sortById_perm ps
  have hmapperm : ((sortById ps).map (fun q => q.id)).Perm (ps.map (fun q => q.id)) :=
    hperm.map _
  have hnd' : ((sortById ps).map (fun q => q.id)).Nodup := hmapperm.nodup_iff.mpr hnd
  have hp' : p ∈ sortById ps := hperm.mem_iff.mpr hp
  rw [posOf_pairwise_eq_idRank p (sortById ps) (sortById_pairwise ps) hnd' hp',
    idRank, idRank, hmapperm.countP_eq]

/-! ### Helper lemmas for the protocol rounds -/

theorem getD_eq_getElem_nat (l : List Nat) (idx : Nat) (h : idx < l.length) :
    l.getD idx 0 = l[idx] := by
  rw [List.getD_eq_getElem?_getD, List.getElem?_eq_getElem h]
  rfl

theorem create_vector_eq_ok (p : Participant) (content : List Nat) (n w s : Nat)
    (hs : p.chosen_slot_index = some s) (hle : s * w + content.length ≤ n * w) :
    p.create_vector content n w = .ok (place content (s * w) (n * w)) := by
  have hsw : s * w ≤ n * w := by omega
  have hcond : min (s * w + content.length) (n * w) - min (s * w) (n * w)
      = content.length := by
    rw [Nat.min_eq_left hle, Nat.min_eq_left hsw]
    omega
  simp [Participant.create_vector, hs, hcond]

theorem mask_vector_eq_ok (K : Nat) (S : List Nat → Nat → Nat) (net : QKDNetwork)
    (qs : List Participant) (p : Participant) (v : List Nat)
    (hp : p ∈ qs)
    (hop : ∀ q ∈ qs, q.other_participant_ids
        = (qs.map (fun q' => q'.id)).filter (fun j => j ≠ q.id))
    (hin : ∀ q ∈ qs, q.id ∈ net.participant_ids)
    (hsec : ∀ a b, (net.secret a b).length = K) :
    p.mask_vector K S net v = .ok (maskFun S net p.id p.other_participant_ids v) := by
  simp only [Participant.mask_vector]
  apply maskFold_ok K S net p.id hsec
  intro j hj
  rw [hop p hp] at hj
  have hj1 : j ∈ qs.map (fun q => q.id) := List.mem_of_mem_filter hj
  have hj2 : j ≠ p.id := by simpa using List.of_mem_filter hj
  obtain ⟨p', hp', hpj⟩ := List.mem_map.mp hj1
  exact ⟨hj2, hin p hp, hpj ▸ hin p' hp'⟩

theorem masked_sum_cancel_map (L : Nat) (S : List Nat → Nat → Nat) (net : QKDNetwork)
    (qs : List Participant) (vf : Participant → List Nat)
    (hnd : (qs.map (fun q => q.id)).Nodup)
    (hop : ∀ q ∈ qs, q.other_participant_ids
        = (qs.map (fun q' => q'.id)).filter (fun j => j ≠ q.id))
    (hL : ∀ q ∈ qs, (vf q).length = L) (k : Nat) :
    xorNatAll (qs.map (fun q =>
        (maskFun S net q.id q.other_participant_ids (vf q)).getD k 0))
      = xorNatAll (qs.map (fun q => (vf q).getD k 0)) := by
  have h := masked_sum_cancel L S net (qs.map (fun q => (q, vf q)))
    (by rw [List.map_map]; exact hnd)
    (by
      intro q hq
      obtain ⟨p, hp, rfl⟩ := List.mem_map.mp hq
      rw [List.map_map]
      exact hop p hp)
    (by
      intro q hq
      obtain ⟨p, hp, rfl⟩ := List.mem_map.mp hq
      exact hL p hp) k
  rw [List.map_map, List.map_map] at h
  exact h

/-- C2.  After the reservation phase completes with all participants
successful — which reassigns each successful participant, ordered by id, the
dense slot index `0..n-1` (`compact_slots`) — the data-submission round
produces a final public vector of length `n × W` whose `i`-th `W`-byte
segment equals, byte for byte, the original message of the participant with
the `i`-th smallest id. -/
theorem C2_data_round_concatenation (K W : Nat) (S : List Nat → Nat → Nat)
    (net : QKDNetwork) (ps : List Participant)
    (h1 : 1 ≤ ps.length)
    (hW : 0 < W)
    (hnd : (ps.map (fun p => p.id)).Nodup)
    (hop : ∀ p ∈ ps, p.other_participant_ids
        = (ps.map (fun p' => p'.id)).filter (fun j => j ≠ p.id))
    (hin : ∀ p ∈ ps, p.id ∈ net.participant_ids)
    (hsec : ∀ a b, (net.secret a b).length = K)
    (hmsg : ∀ p ∈ ps, p.message.length = W)
    (hsucc : ∀ p ∈ ps, p.reservation_status = .SUCCESSFUL) :
    ∃ final, run_data_submission K S net W (compact_slots ps) = .ok final
      ∧ final.length = ps.length * W
      ∧ ∀ i, i < ps.length →
          (final.drop (i * W)).take W
            = ((sortById ps).getD i defaultParticipant).message := by
  set sps := sortById ps with hsps
  set F : Participant → Participant :=
    fun p => { p with chosen_slot_index := some (posOf p sps) } with hF
  have hcps : compact_slots ps = ps.map F := rfl
  set cps := ps.map F with hcpsdef
  rw [hcps]
  set n := ps.length with hn
  have hlencps : cps.length = n := by rw [hcpsdef, List.length_map]
  have hcpsids : cps.map (fun q => q.id) = ps.map (fun q => q.id) := by
    rw [hcpsdef, List.map_map]
    rfl
  have hndc : (cps.map (fun q => q.id)).Nodup := by rw [hcpsids]; exact hnd
  have hpsnodup : ps.Nodup := List.Nodup.of_map _ hnd
  have hcpsnodup : cps.Nodup := List.Nodup.of_map _ hndc
  have hperm : sps.Perm ps := sortById_perm ps
  have hspsnodup : sps.Nodup := hperm.nodup_iff.mpr hpsnodup
  have hspslen : sps.length = n := hperm.length_eq
  have hrank_lt : ∀ p ∈ ps, posOf p sps < n := by
    intro p hp
    have h := posOf_lt_length p sps (hperm.mem_iff.mpr hp)
    omega
  have hopc : ∀ q ∈ cps, q.other_participant_ids
      = (cps.map (fun q' => q'.id)).filter (fun j => j ≠ q.id) := by
    intro q hq
    rw [hcpsdef] at hq
    obtain ⟨p, hp, rfl⟩ := List.mem_map.mp hq
    rw [hcpsids]
    exact hop p hp
  have hinc : ∀ q ∈ cps, q.id ∈ net.participant_ids := by
    intro q hq
    rw [hcpsdef] at hq
    obtain ⟨p, hp, rfl⟩ := List.mem_map.mp hq
    exact hin p hp
  set L := cps.length * W with hLdef
  set vf : Participant → List Nat :=
    fun q => place q.message (q.chosen_slot_index.getD 0 * W) L with hvf
  have hsub : ∀ q ∈ cps, submitOne K S net cps.length W q
      = .ok (maskFun S net q.id q.other_participant_ids (vf q)) := by
    intro q hq
    have hq2 := hq
    rw [hcpsdef] at hq2
    obtain ⟨p, hp, rfl⟩ := List.mem_map.mp hq2
    have hslot : (F p).chosen_slot_index = some (posOf p sps) := rfl
    have hle : posOf p sps * W + (F p).message.length ≤ cps.length * W := by
      have hm : (F p).message.length = W := hmsg p hp
      rw [hm, hlencps]
      have hr := hrank_lt p hp
      have hb : (posOf p sps + 1) * W ≤ n * W := Nat.mul_le_mul_right W (by omega)
      have hexp : (posOf p sps + 1) * W = posOf p sps * W + W := by ring
      omega
    have hc := create_vector_eq_ok (F p) (F p).message cps.length W (posOf p sps) hslot hle
    have hmk := mask_vector_eq_ok K S net cps (F p)
      (place (F p).message (posOf p sps * W) (cps.length * W)) hq hopc hinc hsec
    simp only [submitOne, hc]
    exact hmk
  have hmapM : exceptMapList (submitOne K S net cps.length W) cps
      = .ok (cps.map (fun q => maskFun S net q.id q.other_participant_ids (vf q))) :=
    exceptMapList_ok _ _ cps hsub
  have hfil : cps.filter (fun p => p.reservation_status ≠ ReservationStatus.SUCCESSFUL)
      = [] := by
    rw [List.filter_eq_nil_iff]
    intro q hq
    rw [hcpsdef] at hq
    obtain ⟨p, hp, rfl⟩ := List.mem_map.mp hq
    simp [hsucc p hp]
  have hgt : ¬ ((cps.filter
      (fun p => p.reservation_status ≠ ReservationStatus.SUCCESSFUL)).length > 0) := by
    rw [hfil]
    simp
  have hmaskedlen : ∀ w ∈ cps.map
      (fun q => maskFun S net q.id q.other_participant_ids (vf q)), w.length = L := by
    intro w hw
    obtain ⟨q, hq, rfl⟩ := List.mem_map.mp hw
    rw [maskFun_length]
    simp only [hvf]
    exact place_length _ _ _
  have hcpsne : cps ≠ [] := by
    intro h0
    have : cps.length = 0 := by rw [h0]; rfl
    omega
  obtain ⟨A, hA, hAlen, hAget⟩ := aggregate_vectors_eq_ok_of
    (cps.map (fun q => maskFun S net q.id q.other_participant_ids (vf q))) L
    (by
      intro h0
      exact hcpsne (List.map_eq_nil_iff.mp h0)) hmaskedlen
  have hrun : run_data_submission K S net W cps = .ok A := by
    simp only [run_data_submission]
    rw [if_neg hgt, hmapM]
    exact hA
  have hcancel : ∀ k, A.getD k 0 = xorNatAll (cps.map (fun q => (vf q).getD k 0)) := by
    intro k
    rw [hAget k, List.map_map]
    have h := masked_sum_cancel_map L S net cps vf hndc hopc
      (fun q _ => by simp only [hvf]; exact place_length _ _ _) k
    exact h
  have hseg : ∀ i, i < n → ∀ j, j < W →
      A.getD (i * W + j) 0 = (sps.getD i defaultParticipant).message.getD j 0 := by
    intro i hi j hj
    have hilen : i < sps.length := by rw [hspslen]; exact hi
    have hq0mem : sps.getD i defaultParticipant ∈ sps := by
      rw [List.getD_eq_getElem?_getD, List.getElem?_eq_getElem hilen]
      exact List.getElem_mem hilen
    set q0 : Participant := sps.getD i defaultParticipant with hq0
    have hq0ps : q0 ∈ ps := hperm.mem_iff.mp hq0mem
    have hq0pos : posOf q0 sps = i := posOf_getD defaultParticipant sps hspsnodup i hilen
    have hFq0 : F q0 ∈ cps := by rw [hcpsdef]; exact List.mem_map_of_mem F hq0ps
    have hcount : cps.count (F q0) = 1 := List.count_eq_one_of_mem hcpsnodup hFq0
    have hzero : ∀ c ∈ cps, c ≠ F q0 → (vf c).getD (i * W + j) 0 = 0 := by
      intro c hc hne
      rw [hcpsdef] at hc
      obtain ⟨p, hp, rfl⟩ := List.mem_map.mp hc
      have hpq : p ≠ q0 := fun h => hne (by rw [h])
      have hrne : posOf p sps ≠ i := by
        intro h
        apply hpq
        have hg := getD_posOf p defaultParticipant sps (hperm.mem_iff.mpr hp)
        rw [h] at hg
        rw [hq0]
        exact hg.symm
      have hout : (i * W + j) < (posOf p sps) * W
          ∨ (posOf p sps) * W + p.message.length ≤ i * W + j := by
        have hmW : p.message.length = W := hmsg p hp
        rw [hmW]
        rcases Nat.lt_or_ge (posOf p sps) i with hlt | hge
        · right
          have hb : (posOf p sps + 1) * W ≤ i * W := Nat.mul_le_mul_right W (by omega)
          have hexp : (posOf p sps + 1) * W = posOf p sps * W + W := by ring
          omega
        · left
          have hgt2 : i < posOf p sps := by omega
          have hb : (i + 1) * W ≤ posOf p sps * W := Nat.mul_le_mul_right W (by omega)
          have hexp : (i + 1) * W = i * W + W := by ring
          omega
      show (vf (F p)).getD (i * W + j) 0 = 0
      simp only [hvf]
      exact place_getD_out _ _ _ _ hout
    have hval : (vf (F q0)).getD (i * W + j) 0 = q0.message.getD j 0 := by
      simp only [hvf]
      have hslot : (F q0).chosen_slot_index.getD 0 = i := hq0pos
      rw [hslot]
      have hmW : (F q0).message.length = W := hmsg q0 hq0ps
      have hin1 : i * W ≤ i * W + j := Nat.le_add_right _ _
      have hin2 : i * W + j < i * W + (F q0).message.length := by omega
      have hin3 : i * W + j < L := by
        have hLn : L = n * W := by rw [hLdef, hlencps]
        have hb : (i + 1) * W ≤ n * W := Nat.mul_le_mul_right W (by omega)
        have hexp : (i + 1) * W = i * W + W := by ring
        omega
      rw [place_getD_in (F q0).message (i * W) L (i * W + j) hin3 hin1 hin2]
      have hidx : i * W + j - i * W = j := by omega
      rw [hidx]
    rw [hcancel (i * W + j),
      xorNatAll_map_single cps (fun q => (vf q).getD (i * W + j) 0) (F q0)
        hFq0 hcount hzero]
    exact hval
  refine ⟨A, hrun, ?_, ?_⟩
  · rw [hAlen, hLdef, hlencps]
  · intro i hi
    have hAlen2 : A.length = n * W := by rw [hAlen, hLdef, hlencps]
    have hb : (i + 1) * W ≤ n * W := Nat.mul_le_mul_right W (by omega)
    have hexp : (i + 1) * W = i * W + W := by ring
    have hilen : i < sps.length := by rw [hspslen]; exact hi
    have hq0mem : sps.getD i defaultParticipant ∈ sps := by
      rw [List.getD_eq_getElem?_getD, List.getElem?_eq_getElem hilen]
      exact List.getElem_mem hilen
    have hmlen : (sps.getD i defaultParticipant).message.length = W :=
      hmsg _ (hperm.mem_iff.mp hq0mem)
    apply List.ext_getElem
    · rw [List.length_take, List.length_drop, hAlen2, hmlen]
      omega
    · intro j hj1 hj2
      have hjW : j < W := by rw [hmlen] at hj2; exact hj2
      have hj3 : i * W + j < A.length := by rw [hAlen2]; omega
      rw [List.getElem_take, List.getElem_drop]
      have hseg2 := hseg i hi j hjW
      rw [getD_eq_getElem_nat A (i * W + j) hj3,
        getD_eq_getElem_nat _ j (by rw [hmlen]; exact hjW)] at hseg2
      exact hseg2

/-- Witness for C2 at a concrete 2-participant, 1-byte-message instance. -/
theorem C2_witness :
    (∀ p ∈ c2ps, p.reservation_status = ReservationStatus.SUCCESSFUL) ∧
    (∀ a b, (c1net.secret a b).length = 1) ∧
    ∃ final, run_data_submission 1 c1S c1net 1 (compact_slots c2ps) = .ok final
      ∧ final.length = c2ps.length * 1
      ∧ ∀ i, i < c2ps.length →
          (final.drop (i * 1)).take 1
            = ((sortById c2ps).getD i defaultParticipant).message :=
  ⟨by decide, fun _ _ => rfl,
   C2_data_round_concatenation 1 1 c1S c1net c2ps (by decide) (by decide) (by decide)
     (by decide) (by decide) (fun _ _ => rfl) (by decide) (by decide)⟩

/-- C3 counterexample.  With one available slot and two pending participants
the claimed fail-fast (`len(availableSlots) < count(non-Successful)`) does not
fire: the round is not the insufficient-slots failure but continues into the
next round (both participants collide on the single slot). -/
theorem C3_counterexample :
    (availableOf 1 c3st.occupied).length < (pendingOf c3st.participants).length
    ∧ Except.map RoundOutcome.isInsufficient
        (reservation_round 1 1 c1S c1net 1 (fun pid => [pid + 1]) (fun _ => 0) c3st)
      = .ok false
    ∧ Except.map RoundOutcome.isNext
        (reservation_round 1 1 c1S c1net 1 (fun pid => [pid + 1]) (fun _ => 0) c3st)
      = .ok true := by
  refine ⟨by decide, by decide, by decide⟩

/-- C3 as amended.  The reservation loop fails the whole run early only when
the available-slot list is EMPTY while participants are pending (the code's
check is emptiness, not a cardinality comparison, and the failure is the
`False` return, not a distinguished error value). -/
theorem C3_amended_insufficient_check (K P : Nat) (S : List Nat → Nat → Nat)
    (net : QKDNetwork) (m : Nat) (pseudR : Nat → Nat → List Nat)
    (pickR : Nat → Nat → Nat) (r fuel : Nat) (st : RState)
    (hpend : pendingOf st.participants ≠ [])
    (hav : availableOf m st.occupied = []) :
    reservation_round K P S net m (pseudR r) (pickR r) st = .ok .insufficient
    ∧ reservation_loop K P S net m pseudR pickR r (fuel + 1) st = .ok .failed := by
  have h1 : reservation_round K P S net m (pseudR r) (pickR r) st = .ok .insufficient := by
    simp [reservation_round, hpend, hav]
  exact ⟨h1, by simp [reservation_loop, h1]⟩

/-- Witness for the amended C3: zero slots, one pending participant. -/
theorem C3_witness :
    pendingOf c3wst.participants ≠ [] ∧ availableOf 0 c3wst.occupied = [] ∧
    reservation_round 1 1 c1S c1net 0 (fun pid => [pid + 1]) (fun _ => 0) c3wst
      = .ok .insufficient :=
  ⟨by decide, by decide,
   (C3_amended_insufficient_check 1 1 c1S c1net 0 (fun _ pid => [pid + 1])
      (fun _ _ => 0) 1 0 c3wst (by decide) (by decide)).1⟩

/-- C4 counterexample.  A state in which a successful participant's slot (0)
is already in the occupied set from an earlier round: the disjointness check
fires (conflict flag true), yet the round does not abort — it continues into
the next round. -/
theorem C4_counterexample :
    (c4st.participants.getD 0 defaultParticipant).reservation_status
      = ReservationStatus.SUCCESSFUL
    ∧ (c4st.participants.getD 0 defaultParticipant).chosen_slot_index = some 0
    ∧ (0 : Nat) ∈ c4st.occupied
    ∧ Except.map RoundOutcome.conflictFlag
        (reservation_round 1 1 c1S c4net 2 (fun pid => [pid + 1]) (fun _ => 0) c4st)
      = .ok true
    ∧ Except.map RoundOutcome.isNext
        (reservation_round 1 1 c1S c4net 2 (fun pid => [pid + 1]) (fun _ => 0) c4st)
      = .ok true := by
  refine ⟨by decide, by decide, by decide, by decide, by decide⟩

/-- C4 as amended.  When the slots collected from the currently successful
participants meet the occupied set, the code only reports the conflict (the
flag on the continuing outcome) and carries on: the round still returns
completion or a next-round state — there is no abort path. -/
theorem C4_amended_conflict_continues (K P : Nat) (S : List Nat → Nat → Nat)
    (net : QKDNetwork) (m : Nat) (pseud : Nat → List Nat) (pick : Nat → Nat)
    (st : RState) (ps1 : List Participant) (masked : List (List Nat)) (public : List Nat)
    (hpend : pendingOf st.participants ≠ [])
    (hav : availableOf m st.occupied ≠ [])
    (hprep : exceptMapList (prepOne pseud pick (availableOf m st.occupied))
        st.participants = .ok ps1)
    (hmask : exceptMapList (roundSubmitOne K P S net m) ps1 = .ok masked)
    (haggr : aggregate_vectors masked = .ok public)
    (hconf : (newlyOf (ps1.map (classifyOne P public))).any
        (fun s => s ∈ st.occupied) = true) :
    reservation_round K P S net m pseud pick st
      = .ok (.reserved (compact_slots (ps1.map (classifyOne P public))))
    ∨ reservation_round K P S net m pseud pick st
      = .ok (.next true ⟨ps1.map (classifyOne P public),
          st.occupied ++ newlyOf (ps1.map (classifyOne P public))⟩) := by
  by_cases hall : ((ps1.map (classifyOne P public)).filter
      (fun p => p.reservation_status = .SUCCESSFUL)).length = st.participants.length
  · left
    simp [reservation_round, hpend, hav, hprep, hmask, haggr, hall]
  · right
    simp [reservation_round, hpend, hav, hprep, hmask, haggr, hall, hconf]

/-- Witness for the amended C4 at the concrete conflicting state. -/
theorem C4_witness :
    (newlyOf (c4ps1.map (classifyOne 1 c4public))).any (fun s => s ∈ c4st.occupied) = true
    ∧ (reservation_round 1 1 c1S c4net 2 (fun pid => [pid + 1]) (fun _ => 0) c4st
        = .ok (.reserved (compact_slots (c4ps1.map (classifyOne 1 c4public))))
      ∨ reservation_round 1 1 c1S c4net 2 (fun pid => [pid + 1]) (fun _ => 0) c4st
        = .ok (.next true ⟨c4ps1.map (classifyOne 1 c4public),
            c4st.occupied ++ newlyOf (c4ps1.map (classifyOne 1 c4public))⟩)) :=
  ⟨by decide,
   C4_amended_conflict_continues 1 1 c1S c4net 2 (fun pid => [pid + 1]) (fun _ => 0)
     c4st c4ps1 c4masked c4public (by decide) (by decide) (by decide) (by decide)
     (by decide) (by decide)⟩

/-! ### Round-step structure lemmas -/

theorem getD_map_lt {α β : Type} (f : α → β) (l : List α) (i : Nat) (da : α) (db : β)
    (h : i < l.length) : (l.map f).getD i db = f (l.getD i da) := by
  rw [List.getD_eq_getElem?_getD, List.getD_eq_getElem?_getD, List.getElem?_map,
    List.getElem?_eq_getElem h]
  rfl

theorem verify_reservation_preserves (p : Participant) (P : Nat) (pub : List Nat) (w : Nat) :
    (p.verify_reservation P pub w).id = p.id
    ∧ (p.verify_reservation P pub w).chosen_slot_index = p.chosen_slot_index := by
  rcases hc : p.chosen_slot_index with _ | s
  · rcases hp : p.pseudonym with _ | pn <;> simp [Participant.verify_reservation, hc, hp]
  · rcases hp : p.pseudonym with _ | pn
    · simp [Participant.verify_reservation, hc, hp]
    · simp only [Participant.verify_reservation, hc, hp]
      split <;> simp [hc]

theorem classifyOne_preserves (P : Nat) (pub : List Nat) (q : Participant) :
    (classifyOne P pub q).id = q.id
    ∧ (q.reservation_status = .SUCCESSFUL → classifyOne P pub q = q) := by
  constructor
  · rw [classifyOne]
    split
    · exact (verify_reservation_preserves q P pub P).1
    · rfl
  · intro h
    rw [classifyOne, if_neg (by simp [h])]

theorem prepOne_id (pseud : Nat → List Nat) (pick : Nat → Nat) (available : List Nat)
    (q q' : Participant) (h : prepOne pseud pick available q = .ok q') : q'.id = q.id := by
  simp only [prepOne] at h
  split at h
  · obtain rfl := Except.ok.inj h
    rfl
  · split at h
    · simp at h
    · obtain rfl := Except.ok.inj h
      rfl

theorem exceptMapList_map_invariant {α γ : Type} (f : α → Except Err α) (g : α → γ)
    (hg : ∀ a b, f a = .ok b → g b = g a) :
    ∀ (l l' : List α), exceptMapList f l = .ok l' → l'.map g = l.map g := by
  intro l
  induction l with
  | nil =>
    intro l' h
    simp only [exceptMapList] at h
    obtain rfl := Except.ok.inj h
    rfl
  | cons a t ih =>
    intro l' h
    simp only [exceptMapList] at h
    split at h
    · simp at h
    · rename_i b hfa
      split at h
      · simp at h
      · rename_i bs hft
        obtain rfl := Except.ok.inj h
        rw [List.map_cons, List.map_cons, hg a b hfa, ih bs hft]

theorem reservation_round_inversion (K P : Nat) (S : List Nat → Nat → Nat)
    (net : QKDNetwork) (m : Nat) (pseud : Nat → List Nat) (pick : Nat → Nat)
    (st : RState) (o : RoundOutcome)
    (h : reservation_round K P S net m pseud pick st = .ok o) :
    o = .breakLoop ∨ o = .insufficient ∨
    ∃ ps1 masked public,
      exceptMapList (prepOne pseud pick (availableOf m st.occupied)) st.participants
        = .ok ps1
      ∧ exceptMapList (roundSubmitOne K P S net m) ps1 = .ok masked
      ∧ aggregate_vectors masked = .ok public
      ∧ (o = .reserved (compact_slots (ps1.map (classifyOne P public)))
         ∨ ∃ b, o = .next b ⟨ps1.map (classifyOne P public),
              st.occupied ++ newlyOf (ps1.map (classifyOne P public))⟩) := by
  simp only [reservation_round] at h
  split at h
  · exact Or.inl (Except.ok.inj h).symm
  · split at h
    · exact Or.inr (Or.inl (Except.ok.inj h).symm)
    · split at h
      · simp at h
      · rename_i ps1 hprep
        split at h
        · simp at h
        · rename_i masked hmask
          split at h
          · simp at h
          · rename_i public haggr
            refine Or.inr (Or.inr ⟨ps1, masked, public, hprep, hmask, haggr, ?_⟩)
            split at h
            · exact Or.inl (Except.ok.inj h).symm
            · exact Or.inr ⟨_, (Except.ok.inj h).symm⟩

/-- C9.  Throughout the reservation loop, once a participant's status is
`SUCCESSFUL` its chosen slot index is never reassigned by a later round (the
round step preserves both slot and status), and the only subsequent change is
the single compaction reassignment performed at the moment all participants
are successful, which gives it the dense index `0..n-1` determined by the
rank of its id (ordered by id). -/
theorem C9_successful_slot_frozen (K P : Nat) (S : List Nat → Nat → Nat)
    (net : QKDNetwork) (m : Nat) (pseud : Nat → List Nat) (pick : Nat → Nat)
    (st : RState) (i : Nat)
    (hnd : (st.participants.map (fun q => q.id)).Nodup)
    (hi : i < st.participants.length)
    (hs : (st.participants.getD i defaultParticipant).reservation_status = .SUCCESSFUL) :
    (∀ b st2, reservation_round K P S net m pseud pick st = .ok (.next b st2) →
        (st2.participants.getD i defaultParticipant).chosen_slot_index
          = (st.participants.getD i defaultParticipant).chosen_slot_index
        ∧ (st2.participants.getD i defaultParticipant).reservation_status = .SUCCESSFUL)
    ∧ (∀ ps2, reservation_round K P S net m pseud pick st = .ok (.reserved ps2) →
        (ps2.getD i defaultParticipant).chosen_slot_index
          = some (idRank (st.participants.map (fun q => q.id))
              (st.participants.getD i defaultParticipant).id)
        ∧ idRank (st.participants.map (fun q => q.id))
            (st.participants.getD i defaultParticipant).id < st.participants.length
        ∧ (ps2.getD i defaultParticipant).reservation_status = .SUCCESSFUL) := by
  constructor
  · intro b st2 hround
    rcases reservation_round_inversion K P S net m pseud pick st _ hround with
      h | h | ⟨ps1, masked, public, hprep, hmask, haggr, hcase⟩
    · exact absurd h (by simp)
    · exact absurd h (by simp)
    · rcases hcase with heq | ⟨b', heq⟩
      · exact absurd heq (by simp)
      · have hst2 : st2 = RState.mk (ps1.map (classifyOne P public))
            (st.occupied ++ newlyOf (ps1.map (classifyOne P public))) := by
          injection heq with hb hst
        obtain ⟨hlen1, hpt1⟩ := exceptMapList_eq_ok _ defaultParticipant defaultParticipant
          st.participants ps1 hprep
        have hstep := hpt1 i hi
        simp only [prepOne] at hstep
        rw [if_pos hs] at hstep
        have hp1 : ps1.getD i defaultParticipant
            = { st.participants.getD i defaultParticipant with
                pseudonym := some (pseud (st.participants.getD i defaultParticipant).id) } :=
          (Except.ok.inj hstep).symm
        have hi1 : i < ps1.length := by rw [hlen1]; exact hi
        have hst2p : st2.participants.getD i defaultParticipant
            = classifyOne P public (ps1.getD i defaultParticipant) := by
          rw [hst2]
          exact getD_map_lt (classifyOne P public) ps1 i defaultParticipant
            defaultParticipant hi1
        have hsucc1 : (ps1.getD i defaultParticipant).reservation_status = .SUCCESSFUL := by
          rw [hp1]
          exact hs
        have hclass : classifyOne P public (ps1.getD i defaultParticipant)
            = ps1.getD i defaultParticipant :=
          (classifyOne_preserves P public _).2 hsucc1
        constructor
        · rw [hst2p, hclass, hp1]
        · rw [hst2p, hclass]
          exact hsucc1
  · intro ps2 hround
    rcases reservation_round_inversion K P S net m pseud pick st _ hround with
      h | h | ⟨ps1, masked, public, hprep, hmask, haggr, hcase⟩
    · exact absurd h (by simp)
    · exact absurd h (by simp)
    · rcases hcase with heq | ⟨b', heq⟩
      · have hps2 : ps2 = compact_slots (ps1.map (classifyOne P public)) := by
          injection heq
        obtain ⟨hlen1, hpt1⟩ := exceptMapList_eq_ok _ defaultParticipant defaultParticipant
          st.participants ps1 hprep
        have hstep := hpt1 i hi
        simp only [prepOne] at hstep
        rw [if_pos hs] at hstep
        have hp1 : ps1.getD i defaultParticipant
            = { st.participants.getD i defaultParticipant with
                pseudonym := some (pseud (st.participants.getD i defaultParticipant).id) } :=
          (Except.ok.inj hstep).symm
        have hi1 : i < ps1.length := by rw [hlen1]; exact hi
        set psC := ps1.map (classifyOne P public) with hpsC
        have hiC : i < psC.length := by rw [hpsC, List.length_map]; exact hi1
        have hCel : psC.getD i defaultParticipant
            = classifyOne P public (ps1.getD i defaultParticipant) := by
          rw [hpsC]
          exact getD_map_lt _ ps1 i defaultParticipant defaultParticipant hi1
        have hsucc1 : (ps1.getD i defaultParticipant).reservation_status = .SUCCESSFUL := by
          rw [hp1]
          exact hs
        have hclass : classifyOne P public (ps1.getD i defaultParticipant)
            = ps1.getD i defaultParticipant :=
          (classifyOne_preserves P public _).2 hsucc1
        have hid1 : ps1.map (fun q => q.id) = st.participants.map (fun q => q.id) :=
          exceptMapList_map_invariant _ (fun q => q.id)
            (fun a b hab => prepOne_id pseud pick _ a b hab) st.participants ps1 hprep
        have hidC : psC.map (fun q => q.id) = ps1.map (fun q => q.id) := by
          rw [hpsC, List.map_map]
          exact List.map_congr_left (fun q _ => (classifyOne_preserves P public q).1)
        have hndC : (psC.map (fun q => q.id)).Nodup := by
          rw [hidC, hid1]
          exact hnd
        have hcompel : ps2.getD i defaultParticipant
            = { psC.getD i defaultParticipant with
                chosen_slot_index :=
                  some (posOf (psC.getD i defaultParticipant) (sortById psC)) } := by
          rw [hps2]
          exact getD_map_lt _ psC i defaultParticipant defaultParticipant hiC
        have hmemC : psC.getD i defaultParticipant ∈ psC := by
          rw [List.getD_eq_getElem?_getD, List.getElem?_eq_getElem hiC]
          exact List.getElem_mem hiC
        have hpos : posOf (psC.getD i defaultParticipant) (sortById psC)
            = idRank (psC.map (fun q => q.id)) (psC.getD i defaultParticipant).id :=
          posOf_sortById_eq_idRank psC _ hndC hmemC
        have hideq : (psC.getD i defaultParticipant).id
            = (st.participants.getD i defaultParticipant).id := by
          rw [hCel, hclass, hp1]
        refine ⟨?_, ?_, ?_⟩
        · rw [hcompel]
          show some (posOf (psC.getD i defaultParticipant) (sortById psC))
              = some (idRank (st.participants.map (fun q => q.id))
                  (st.participants.getD i defaultParticipant).id)
          rw [hpos, hidC, hid1, hideq]
        · have hpmem : st.participants.getD i defaultParticipant ∈ st.participants := by
            rw [List.getD_eq_getElem?_getD, List.getElem?_eq_getElem hi]
            exact List.getElem_mem hi
          have hmm : (st.participants.getD i defaultParticipant).id
              ∈ st.participants.map (fun q => q.id) := List.mem_map_of_mem _ hpmem
          have h2 := idRank_lt (st.participants.map (fun q => q.id)) _ hmm
          rw [List.length_map] at h2
          exact h2
        · rw [hcompel]
          show (psC.getD i defaultParticipant).reservation_status = .SUCCESSFUL
          rw [hCel, hclass]
          exact hsucc1
      · exact absurd heq (by simp)

/-- Witness for C9: a concrete round in which the remaining pending
participant succeeds, so the round completes and the earlier-successful
participant with id 0 gets the dense slot of rank 0. -/
theorem C9_witness :
    (c9st.participants.getD 0 defaultParticipant).reservation_status
      = ReservationStatus.SUCCESSFUL
    ∧ reservation_round 1 1 c1S c1net 2 (fun pid => [pid + 1]) (fun _ => 0) c9st
      = .ok (.reserved (reservedOf
          (reservation_round 1 1 c1S c1net 2 (fun pid => [pid + 1]) (fun _ => 0) c9st)))
    ∧ ((reservedOf (reservation_round 1 1 c1S c1net 2 (fun pid => [pid + 1])
          (fun _ => 0) c9st)).getD 0 defaultParticipant).chosen_slot_index
      = some (idRank (c9st.participants.map (fun q => q.id)) 0) :=
  ⟨by decide, by decide,
   ((C9_successful_slot_frozen 1 1 c1S c1net 2 (fun pid => [pid + 1]) (fun _ => 0)
       c9st 0 (by decide) (by decide) (by decide)).2
     (reservedOf (reservation_round 1 1 c1S c1net 2 (fun pid => [pid + 1])
        (fun _ => 0) c9st)) (by decide)).1⟩
